import Mathlib

/-
Verification of the containers library (arena allocator, growable array,
arena-backed string) against its specification.

Modelling conventions for the shallow embedding of the C source
(src/containers.c):

* size_t values are modelled as Nat.  All quantities the claims range over
  (offsets, sizes, counts, capacities, lengths) are bounded far below 2^64 in
  any executing process, so size_t wrap-around is unreachable on the traces
  the claims describe and is not modelled.
* A heap pointer returned by arena_alloc, dynarr_push, dynarr_get, ... is
  modelled as the byte offset of the target inside its owning buffer; the
  buffer contents are modelled as a List Nat of bytes.
* malloc / realloc success is nondeterministic at the C level; it is made an
  explicit Bool parameter of every operation that may allocate, so every
  operation is a total function of its inputs.
* realloc preserves the prefix of the old contents; bytes beyond the old
  length are indeterminate and are modelled as 0 (no claim reads them).
* The string functions keep raw char* values (CPtr below): a pointer into
  the arena region carries the region generation it was taken from, and
  every successful growth realloc increments the generation — C ends the
  old region's lifetime even when the new address coincides — so a read
  through a stale pointer is undefined behavior, surfaced as the ub
  outcome.  Pointers to caller-owned memory outside the arena are immune
  to relocation and are modelled by their readable bytes.
* alignof(max_align_t) is 16 on the x86-64 / AArch64 targets of this
  library.
-/

namespace Containers

def ARENA_DEFAULT_SIZE : Nat := 64 * 1024

def ARENA_MAGIC_ALIVE : Nat := 0xABCDEF01

def ARENA_MAGIC_DEAD : Nat := 0xDEADBEEF

/-- alignof(max_align_t) on the targeted platforms. -/
def maxAlign : Nat := 16

/-- Rounding of a requested size up to a multiple of maxAlign.  The C source
computes (size + alignof(max_align_t) - 1) & ~(alignof(max_align_t) - 1);
for the power-of-two alignment 16 and sizes below 2^64 - 15 this equals
rounding up by division, which is how we write it over Nat. -/
def alignUp (sz : Nat) : Nat := ((sz + maxAlign - 1) / maxAlign) * maxAlign

/-- struct Arena from src/containers.c.  The memory field of the C struct
is a char*; in this control-state record only its NULL-ness is modelled (a
Bool that is true when the pointer is non-null).  The region's byte
contents and identity, which the string layer needs, are carried alongside
by ArenaMem below. -/
structure Arena where
  magic : Nat
  memory : Bool
  size : Nat
  offset : Nat
deriving DecidableEq

/-- Result of an operation that returns a pointer: the debug-mode abort, a
NULL return, or a pointer modelled as a byte offset into the owning
buffer. -/
inductive PtrResult where
  | aborted
  | nullPtr
  | ptr (off : Nat)
deriving DecidableEq

/-- arena_create.  The two Bool parameters model the success of the two
malloc calls (the Arena struct and the backing region). -/
def arena_create (initial_size : Nat) (structOk memOk : Bool) : Option Arena :=
  let sz := if initial_size = 0 then ARENA_DEFAULT_SIZE else initial_size
  if structOk = false then none
  else if memOk = false then none
  else some ⟨ARENA_MAGIC_ALIVE, true, sz, 0⟩

/-- arena_alloc on a non-null arena handle.  dbg is CONTAINERS_DEBUG; rok
models the success of the realloc call on the growth path.  The returned
pointer is the byte offset of the allocation inside the backing region. -/
def arena_alloc (dbg rok : Bool) (arena : Arena) (sz : Nat) : PtrResult × Arena :=
  if arena.magic = ARENA_MAGIC_DEAD then
    (if dbg then .aborted else .nullPtr, arena)
  else if arena.magic ≠ ARENA_MAGIC_ALIVE ∨ arena.memory = false then
    (.nullPtr, arena)
  else
    let aligned_size := alignUp sz
    if arena.offset + aligned_size > arena.size then
      if rok then
        let ns0 := arena.size <<< 1
        let new_size := if ns0 < arena.offset + aligned_size
                        then arena.offset + aligned_size else ns0
        (.ptr arena.offset,
          { arena with size := new_size, offset := arena.offset + aligned_size })
      else (.nullPtr, arena)
    else
      (.ptr arena.offset, { arena with offset := arena.offset + aligned_size })

/-- arena_is_valid. -/
def arena_is_valid (arena : Option Arena) : Bool :=
  match arena with
  | none => false
  | some a => (a.magic == ARENA_MAGIC_ALIVE) && a.memory

/-- State of an Arena* handle: NULL, pointing at a freed Arena struct, or
pointing at a live (allocated) struct with the given field contents.  The
freed state matters because arena_destroy frees the struct itself. -/
inductive ArenaRef where
  | null
  | freed
  | live (a : Arena)
deriving DecidableEq

/-- Observable effects of one arena_destroy call. -/
structure DestroyOut where
  ref : ArenaRef
  memoryFreed : Bool
  structFreed : Bool
  ub : Bool
deriving DecidableEq

/-- arena_destroy.  A NULL handle returns immediately.  A handle to a freed
struct makes the function read arena->magic from freed memory: that is
undefined behavior, recorded in the ub flag (no defined result exists).  On
a live struct the function returns early if magic is the DEAD sentinel
(optionally logging), otherwise it poisons the region in debug builds,
frees the region, zeroes the fields, and finally frees the Arena struct
itself. -/
def arena_destroy (_dbg : Bool) (r : ArenaRef) : DestroyOut :=
  match r with
  | .null => ⟨.null, false, false, false⟩
  | .freed => ⟨.freed, false, false, true⟩
  | .live a =>
    if a.magic = ARENA_MAGIC_DEAD then
      ⟨.live a, false, false, false⟩
    else
      ⟨.freed, a.memory, true, false⟩

/-- realloc on a buffer of bytes: the prefix is preserved, freshly exposed
bytes are indeterminate (modelled as 0).  realloc(NULL, n) behaves as
malloc(n), which the empty-list default of the callers reproduces. -/
def reallocBytes (l : List Nat) (n : Nat) : List Nat :=
  l.take n ++ List.replicate (n - l.length) 0

/-- struct DynArray from src/containers.h.  data models the void* buffer:
none for NULL, otherwise the element_size * capacity buffer bytes. -/
structure DynArray where
  data : Option (List Nat)
  count : Nat
  capacity : Nat
  element_size : Nat
deriving DecidableEq

/-- dynarr_create.  mallocOk models the success of the buffer malloc; on
failure the zero-initialized struct (DynArray){0} is returned. -/
def dynarr_create (element_size initial_capacity : Nat) (mallocOk : Bool) : DynArray :=
  let cap := if initial_capacity = 0 then 8 else initial_capacity
  if mallocOk then ⟨some (List.replicate (element_size * cap) 0), 0, cap, element_size⟩
  else ⟨none, 0, 0, 0⟩

/-- dynarr_push.  rok models the success of the realloc on the growth path.
The returned pointer is the byte offset count * element_size of the new
slot inside the buffer. -/
def dynarr_push (rok : Bool) (arr : DynArray) : PtrResult × DynArray :=
  match arr.data with
  | none => (.nullPtr, arr)
  | some mem =>
    if arr.count ≥ arr.capacity then
      if rok then
        let new_capacity := arr.capacity <<< 1
        let new_data := reallocBytes mem (arr.element_size * new_capacity)
        (.ptr (arr.count * arr.element_size),
          ⟨some new_data, arr.count + 1, new_capacity, arr.element_size⟩)
      else (.nullPtr, arr)
    else
      (.ptr (arr.count * arr.element_size), { arr with count := arr.count + 1 })

/-- dynarr_get.  dbg is CONTAINERS_DEBUG; in debug builds an out-of-range
index aborts, otherwise it yields NULL.  The NULL-data guard runs first in
either configuration. -/
def dynarr_get (dbg : Bool) (arr : DynArray) (index : Nat) : PtrResult :=
  match arr.data with
  | none => .nullPtr
  | some _ =>
    if dbg = true ∧ index ≥ arr.count then .aborted
    else if index < arr.count then .ptr (index * arr.element_size)
    else .nullPtr

/-- dynarr_get_unchecked: raw offset computation, no checks. -/
def dynarr_get_unchecked (arr : DynArray) (index : Nat) : Nat :=
  index * arr.element_size

/-- dynarr_last. -/
def dynarr_last (arr : DynArray) : PtrResult :=
  if arr.count > 0 then .ptr (dynarr_get_unchecked arr (arr.count - 1))
  else .nullPtr

/-- dynarr_pop.  rok models the success of the shrink realloc; on its
failure count is still decremented but capacity and data are kept. -/
def dynarr_pop (rok : Bool) (arr : DynArray) : DynArray :=
  if arr.count = 0 then arr
  else
    let cnt := arr.count - 1
    if cnt < arr.capacity >>> 2 ∧ arr.capacity > 8 then
      if rok then
        let new_capacity := arr.capacity >>> 1
        let new_data := reallocBytes (arr.data.getD []) (arr.element_size * new_capacity)
        ⟨some new_data, cnt, new_capacity, arr.element_size⟩
      else { arr with count := cnt }
    else { arr with count := cnt }

/-- dynarr_clear. -/
def dynarr_clear (arr : DynArray) : DynArray :=
  { arr with count := 0 }

/-- dynarr_destroy: frees the buffer and zeroes the struct. -/
def dynarr_destroy (_arr : DynArray) : DynArray :=
  ⟨none, 0, 0, 0⟩

/-- struct Str as str_cmp handles it.  str_cmp performs no allocation, so
no arena operation can move either operand's bytes during the call; for
comparison it is therefore exact to model each operand's data field by the
bytes readable at it on entry (none for NULL).  The allocating string
functions below use StrP instead, which keeps the raw pointer. -/
structure Str where
  data : Option (List Nat)
  len : Nat
deriving DecidableEq

/-- Content bytes of a string: the first len bytes at the data pointer. -/
def Str.bytes (s : Str) : List Nat := (s.data.getD []).take s.len

/-- Well-formedness of a Str value: the cached length never exceeds the
bytes readable from the data pointer (for a NULL pointer this forces
len = 0).  Every Str the library itself produces satisfies this. -/
def Str.WF (s : Str) : Prop := s.len ≤ (s.data.getD []).length

instance (s : Str) : Decidable s.WF := by unfold Str.WF; infer_instance

/-- Sign of memcmp on byte buffers (memcmp's exact magnitude is
implementation-defined; only the sign is specified).  The callers only
compare buffers of equal readable length. -/
def memcmpSign : List Nat → List Nat → Int
  | x :: xs, y :: ys =>
    if x < y then -1 else if y < x then 1 else memcmpSign xs ys
  | _, _ => 0

/-- str_cmp: length first, then memcmp over a.len bytes of each buffer. -/
def str_cmp (a b : Str) : Int :=
  if a.len ≠ b.len then (if a.len < b.len then -1 else 1)
  else memcmpSign ((a.data.getD []).take a.len) ((b.data.getD []).take a.len)

/-- Writing v at byte offset off of a buffer (the caller storing an element
through a returned pointer). -/
def writeBytes (mem : List Nat) (off : Nat) (v : List Nat) : List Nat :=
  mem.take off ++ v ++ mem.drop (off + v.length)

/-- Reading n bytes at byte offset off of a buffer. -/
def readBytes (mem : List Nat) (off n : Nat) : List Nat :=
  (mem.drop off).take n

/-- One growable-array operation, with the success flag of any realloc the
operation performs. -/
inductive DynOp where
  | push (rok : Bool)
  | pop (rok : Bool)
  | clear
deriving DecidableEq

/-- State transition of one growable-array operation. -/
def dynStep (arr : DynArray) (op : DynOp) : DynArray :=
  match op with
  | .push rok => (dynarr_push rok arr).2
  | .pop rok => dynarr_pop rok arr
  | .clear => dynarr_clear arr

/-- All states an operation sequence passes through, the start state
included. -/
def dynStates (arr : DynArray) (ops : List DynOp) : List DynArray :=
  ops.scanl dynStep arr

/-- State transition of one arena_alloc call: requested size paired with
the realloc-success flag. -/
def arenaStep (dbg : Bool) (a : Arena) (req : Nat × Bool) : Arena :=
  (arena_alloc dbg req.2 a req.1).2

/-- All arena states an allocation sequence passes through. -/
def arenaStates (dbg : Bool) (a : Arena) (reqs : List (Nat × Bool)) : List Arena :=
  reqs.scanl (arenaStep dbg) a

/-- Concrete live arena used by witnesses and counterexamples. -/
def arena16 : Arena := ⟨ARENA_MAGIC_ALIVE, true, 16, 0⟩

/-- The caller storing the element bytes v through a pointer returned by
dynarr_push (byte offset off into the buffer). -/
def dynWrite (arr : DynArray) (off : Nat) (v : List Nat) : DynArray :=
  { arr with data := arr.data.map (fun m => writeBytes m off v) }

/-- A char* value the string functions read through: either a pointer to
caller-owned memory outside the arena (modelled by the bytes readable
there, which no arena operation can move) or a pointer into the arena's
backing region, tagged with the region generation it was taken from and
its byte offset.  Every successful realloc ends the old region's lifetime
(the old pointer value becomes indeterminate even if the new address
coincides), so an arena pointer is readable only while its generation is
current. -/
inductive CPtr where
  | ext (bytes : List Nat)
  | arena (gen off : Nat)
deriving DecidableEq

/-- An arena together with the contents of its backing region and the
region generation (incremented at every growth realloc). -/
structure ArenaMem where
  arena : Arena
  bytes : List Nat
  gen : Nat
deriving DecidableEq

/-- Bytes readable through a pointer in the given state: all bytes from
the pointed-to address onward, or none when reading is undefined behavior
(the pointer's region generation is stale: realloc freed that region). -/
def readPtr (A : ArenaMem) : CPtr → Option (List Nat)
  | .ext bytes => some bytes
  | .arena g off => if g = A.gen then some (A.bytes.drop off) else none

/-- The first n bytes readable at a pointer (none on undefined reads). -/
def readN (A : ArenaMem) (p : CPtr) (n : Nat) : Option (List Nat) :=
  (readPtr A p).map (fun l => l.take n)

/-- arena_alloc acting on the region contents as well: when the growth
branch ran realloc (visible as the size increase), the contents move to a
fresh region (prefix preserved, new bytes indeterminate) and the
generation increments, invalidating every pointer into the old region. -/
def arena_allocM (dbg rok : Bool) (A : ArenaMem) (sz : Nat) : PtrResult × ArenaMem :=
  let r := arena_alloc dbg rok A.arena sz
  if A.arena.size < r.2.size then
    (r.1, ⟨r.2, reallocBytes A.bytes r.2.size, A.gen + 1⟩)
  else
    (r.1, ⟨r.2, A.bytes, A.gen⟩)

/-- arena_is_valid on a possibly-NULL ArenaMem handle. -/
def arena_is_validM (A : Option ArenaMem) : Bool :=
  arena_is_valid (A.map ArenaMem.arena)

/-- struct Str as the allocating string functions handle it: the data
field is the char* value itself (none for NULL), not a byte snapshot, so a
later relocation of the arena region is visible to every subsequent
read. -/
structure StrP where
  data : Option CPtr
  len : Nat
deriving DecidableEq

/-- Result of an allocating string operation: the C call completes with a
string and the updated allocator state, or it commits undefined behavior —
memcpy from a pointer whose region realloc freed, past the readable end,
or from NULL. -/
inductive StrOut where
  | ub
  | ok (s : StrP) (A : Option ArenaMem)
deriving DecidableEq

/-- Pointer arithmetic p + k. -/
def ptrAdd : CPtr → Nat → CPtr
  | .ext bytes, k => .ext (bytes.drop k)
  | .arena g off, k => .arena g (off + k)

/-- str_copy.  The guards run first; then the len + 1 allocation, and only
THEN the memcpy, which reads the source pointer after the allocation may
have relocated the region — exactly the C order.  The copied bytes plus
the terminator are written at the returned offset of the current
region. -/
def str_copyM (dbg rok : Bool) (A : Option ArenaMem) (data : Option CPtr)
    (len : Nat) : StrOut :=
  if data = none ∨ len = 0 ∨ arena_is_validM A = false then .ok ⟨none, 0⟩ A
  else
    match A, data with
    | some A0, some p =>
      (match arena_allocM dbg rok A0 (len + 1) with
       | (.ptr off, A1) =>
         (match readPtr A1 p with
          | none => .ub
          | some src =>
            if src.length < len then .ub
            else
              .ok ⟨some (.arena A1.gen off), len⟩
                (some ⟨A1.arena, writeBytes A1.bytes off (src.take len ++ [0]),
                       A1.gen⟩))
       | (_, A1) => .ok ⟨none, 0⟩ (some A1))
    | _, _ => .ok ⟨none, 0⟩ A

/-- str_concat.  Both source pointers are read by memcpy only after the
joint allocation, which can relocate the region both operands live in.
The destination is fresh (above every prior allocation), so the two
memcpys cannot overlap the sources and are modelled as one splice. -/
def str_concatM (dbg rok : Bool) (A : Option ArenaMem) (a b : StrP) : StrOut :=
  if arena_is_validM A = false then .ok ⟨none, 0⟩ A
  else if a.len = 0 then str_copyM dbg rok A b.data b.len
  else if b.len = 0 then str_copyM dbg rok A a.data a.len
  else
    match A, a.data, b.data with
    | some A0, some pa, some pb =>
      (match arena_allocM dbg rok A0 (a.len + b.len + 1) with
       | (.ptr off, A1) =>
         (match readPtr A1 pa, readPtr A1 pb with
          | some sa, some sb =>
            if sa.length < a.len ∨ sb.length < b.len then .ub
            else
              .ok ⟨some (.arena A1.gen off), a.len + b.len⟩
                (some ⟨A1.arena,
                  writeBytes A1.bytes off (sa.take a.len ++ (sb.take b.len ++ [0])),
                  A1.gen⟩)
          | _, _ => .ub)
       | (_, A1) => .ok ⟨none, 0⟩ (some A1))
    | _, _, _ => .ub

/-- str_substr: the s.data + start pointer is formed first and handed to
str_copy, whose internal allocation may relocate the region it points
into. -/
def str_substrM (dbg rok : Bool) (A : Option ArenaMem) (s : StrP)
    (start len : Nat) : StrOut :=
  if arena_is_validM A = false ∨ start ≥ s.len then .ok ⟨none, 0⟩ A
  else
    let len' := if start + len > s.len then s.len - start else len
    str_copyM dbg rok A (s.data.map (fun p => ptrAdd p start)) len'

/-- The concat(copy(a), copy(b)) scenario of the specification over the
memory model: both copies read caller-owned byte sequences, but the
strings they return point into the very arena the concatenation then
allocates from. -/
def concatCopiesM (dbg : Bool) (A : Option ArenaMem) (a b : List Nat) : StrOut :=
  match str_copyM dbg true A (some (.ext a)) a.length with
  | .ub => .ub
  | .ok sa A1 =>
    match str_copyM dbg true A1 (some (.ext b)) b.length with
    | .ub => .ub
    | .ok sb A2 => str_concatM dbg true A2 sa sb

/-- Concrete arena-with-memory states for witnesses and counterexamples: a
16-byte region holding the bytes of "ab" with cursor at 0; the same region
with the cursor at 16 (full, as after str_create of "ab"); a fresh 64-byte
region; and a 64-byte region holding "ab" with the cursor at 16. -/
def arenaMem16 : ArenaMem :=
  ⟨⟨ARENA_MAGIC_ALIVE, true, 16, 0⟩, [97, 98, 0] ++ List.replicate 13 0, 0⟩

def arenaMemABFull : ArenaMem :=
  ⟨⟨ARENA_MAGIC_ALIVE, true, 16, 16⟩, [97, 98, 0] ++ List.replicate 13 0, 0⟩

def arenaMemZ64 : ArenaMem :=
  ⟨⟨ARENA_MAGIC_ALIVE, true, 64, 0⟩, List.replicate 64 0, 0⟩

def arenaMemAB64 : ArenaMem :=
  ⟨⟨ARENA_MAGIC_ALIVE, true, 64, 16⟩, [97, 98, 0] ++ List.replicate 61 0, 0⟩

/-- The two-byte arena-resident string "ab" at offset 0 of generation 0. -/
def strABP : StrP := ⟨some (.arena 0 0), 2⟩

/- ------------------------------------------------------------------ -/
/- Generic helper lemmas                                               -/
/- ------------------------------------------------------------------ -/

theorem scanl_all_of_preserved {α β : Type} (P : α → Prop) (f : α → β → α)
    (hf : ∀ a b, P a → P (f a b)) :
    ∀ (l : List β) (a : α), P a → ∀ s ∈ l.scanl f a, P s := by
  intro l
  induction l with
  | nil =>
    intro a ha s hs
    simp only [List.scanl_nil, List.mem_singleton] at hs
    exact hs ▸ ha
  | cons b l ih =>
    intro a ha s hs
    rw [List.scanl_cons] at hs
    rcases List.mem_cons.mp hs with h | h
    · exact h ▸ ha
    · exact ih (f a b) (hf a b ha) s h

theorem scanl_head_cons {α β : Type} (f : α → β → α) (a : α) (l : List β) :
    ∃ t, l.scanl f a = a :: t := by
  cases l with
  | nil => exact ⟨[], rfl⟩
  | cons b l => exact ⟨(l.scanl f (f a b)), by rw [List.scanl_cons]; rfl⟩

theorem scanl_chain {α β : Type} (R : α → α → Prop) (f : α → β → α)
    (hf : ∀ a b, R a (f a b)) (l : List β) (a : α) :
    List.Chain' R (l.scanl f a) := by
  induction l generalizing a with
  | nil => simp
  | cons b l ih =>
    rw [List.scanl_cons]
    obtain ⟨t, ht⟩ := scanl_head_cons f (f a b) l
    rw [ht]
    exact List.chain'_cons.mpr ⟨hf a b, ht ▸ ih (f a b)⟩

theorem reallocBytes_length (l : List Nat) (n : Nat) :
    (reallocBytes l n).length = n := by
  simp [reallocBytes, List.length_take]
  omega

theorem readBytes_writeBytes (mem v : List Nat) (off : Nat)
    (h : off ≤ mem.length) :
    readBytes (writeBytes mem off v) off v.length = v := by
  unfold readBytes writeBytes
  rw [List.append_assoc, List.drop_append_of_le_length (by simp [List.length_take]; omega)]
  have hnil : (mem.take off).drop off = [] :=
    List.drop_eq_nil_of_le (by simp [List.length_take])
  rw [hnil, List.nil_append]
  simp

theorem alignUp_bounds (sz : Nat) :
    alignUp sz % maxAlign = 0 ∧ sz ≤ alignUp sz ∧ alignUp sz < sz + maxAlign := by
  unfold alignUp maxAlign
  omega

/- ------------------------------------------------------------------ -/
/- Claim theorems                                                      -/
/- ------------------------------------------------------------------ -/

/-- C10: dynarr_destroy resets the array handle to the all-zero value, and
every subsequent push, get, or last on that handle returns the NULL
failure indicator and leaves the handle unchanged (push returns the
untouched zero handle; get and last take the handle by const reference and
return NULL before touching any buffer). -/
theorem C10_destroy_then_ops_are_null (dbg rok : Bool) (arr : DynArray) (i : Nat) :
    dynarr_destroy arr = ⟨none, 0, 0, 0⟩ ∧
    dynarr_push rok (dynarr_destroy arr) = (.nullPtr, dynarr_destroy arr) ∧
    dynarr_get dbg (dynarr_destroy arr) i = .nullPtr ∧
    dynarr_last (dynarr_destroy arr) = .nullPtr :=
  ⟨rfl, rfl, rfl, rfl⟩

/-- C7 (code bug): the first arena_destroy on a live arena frees the Arena
struct itself, so the second arena_destroy on the same handle reads
arena->magic from freed memory — undefined behavior — in both the debug
and non-debug configurations, instead of being a guaranteed-safe no-op.
The backing region is not released a second time (it was freed and the
pointer nulled before the struct was freed). -/
theorem C7_double_destroy_dereferences_freed_struct :
    (arena_destroy false (.live arena16)).structFreed = true ∧
    (arena_destroy false (arena_destroy false (.live arena16)).ref).ub = true ∧
    (arena_destroy false (arena_destroy false (.live arena16)).ref).memoryFreed = false ∧
    (arena_destroy true (arena_destroy true (.live arena16)).ref).ub = true ∧
    (arena_destroy true (arena_destroy true (.live arena16)).ref).memoryFreed = false := by
  decide

/-- dynarr_push on a NULL buffer fails and changes nothing. -/
theorem dynarr_push_data_none (rok : Bool) (arr : DynArray) (hd : arr.data = none) :
    dynarr_push rok arr = (.nullPtr, arr) := by
  unfold dynarr_push
  rw [hd]

/-- dynarr_push on a full array with a successful realloc doubles the
capacity and appends. -/
theorem dynarr_push_grow (arr : DynArray) (mem : List Nat) (hd : arr.data = some mem)
    (hge : arr.count ≥ arr.capacity) :
    dynarr_push true arr =
      (.ptr (arr.count * arr.element_size),
        ⟨some (reallocBytes mem (arr.element_size * (arr.capacity <<< 1))),
         arr.count + 1, arr.capacity <<< 1, arr.element_size⟩) := by
  unfold dynarr_push
  rw [hd]
  simp [hge]

/-- dynarr_push on a full array with a failed realloc fails and changes
nothing. -/
theorem dynarr_push_grow_fail (arr : DynArray) (mem : List Nat) (hd : arr.data = some mem)
    (hge : arr.count ≥ arr.capacity) :
    dynarr_push false arr = (.nullPtr, arr) := by
  unfold dynarr_push
  rw [hd]
  simp [hge]

/-- dynarr_push with spare capacity just appends. -/
theorem dynarr_push_fast (rok : Bool) (arr : DynArray) (mem : List Nat)
    (hd : arr.data = some mem) (hlt : arr.count < arr.capacity) :
    dynarr_push rok arr =
      (.ptr (arr.count * arr.element_size),
        ⟨some mem, arr.count + 1, arr.capacity, arr.element_size⟩) := by
  unfold dynarr_push
  rw [hd]
  simp [not_le.mpr hlt]

/-- dynarr_pop on an empty array changes nothing. -/
theorem dynarr_pop_zero (rok : Bool) (arr : DynArray) (h0 : arr.count = 0) :
    dynarr_pop rok arr = arr := by
  unfold dynarr_pop
  rw [if_pos h0]

/-- dynarr_pop below the quarter threshold with capacity above 8 and a
successful realloc halves the capacity. -/
theorem dynarr_pop_shrink (arr : DynArray) (h0 : arr.count ≠ 0)
    (hs : arr.count - 1 < arr.capacity >>> 2 ∧ arr.capacity > 8) :
    dynarr_pop true arr =
      ⟨some (reallocBytes (arr.data.getD []) (arr.element_size * (arr.capacity >>> 1))),
       arr.count - 1, arr.capacity >>> 1, arr.element_size⟩ := by
  unfold dynarr_pop
  rw [if_neg h0, if_pos hs, if_pos rfl]

/-- dynarr_pop below the quarter threshold whose shrink realloc fails only
decrements the count. -/
theorem dynarr_pop_shrink_fail (arr : DynArray) (h0 : arr.count ≠ 0)
    (hs : arr.count - 1 < arr.capacity >>> 2 ∧ arr.capacity > 8) :
    dynarr_pop false arr = { arr with count := arr.count - 1 } := by
  unfold dynarr_pop
  rw [if_neg h0, if_pos hs, if_neg (by simp)]

/-- dynarr_pop above the shrink threshold only decrements the count. -/
theorem dynarr_pop_plain (rok : Bool) (arr : DynArray) (h0 : arr.count ≠ 0)
    (hs : ¬(arr.count - 1 < arr.capacity >>> 2 ∧ arr.capacity > 8)) :
    dynarr_pop rok arr = { arr with count := arr.count - 1 } := by
  unfold dynarr_pop
  rw [if_neg h0, if_neg hs]

theorem capacity_shiftRight_two (c : Nat) : c >>> 2 = c / 4 := by
  rw [Nat.shiftRight_eq_div_pow]

theorem capacity_shiftRight_one (c : Nat) : c >>> 1 = c / 2 := by
  rw [Nat.shiftRight_eq_div_pow]

theorem capacity_shiftLeft_one (c : Nat) : c <<< 1 = c * 2 := by
  rw [Nat.shiftLeft_eq]

/-- Growable-array basic invariant: count stays at most capacity, and a
non-null buffer implies a positive capacity.  Preserved by every
operation. -/
theorem dynStep_basic_inv (arr : DynArray) (op : DynOp)
    (h1 : arr.count ≤ arr.capacity) (h2 : arr.data = none ∨ 1 ≤ arr.capacity) :
    (dynStep arr op).count ≤ (dynStep arr op).capacity ∧
      ((dynStep arr op).data = none ∨ 1 ≤ (dynStep arr op).capacity) := by
  cases op with
  | push rok =>
    simp only [dynStep]
    cases hd : arr.data with
    | none => rw [dynarr_push_data_none rok arr hd]; exact ⟨h1, h2⟩
    | some mem =>
      have hcap : 1 ≤ arr.capacity := by
        rcases h2 with h | h
        · rw [hd] at h; cases h
        · exact h
      by_cases hge : arr.count ≥ arr.capacity
      · cases rok with
        | false => rw [dynarr_push_grow_fail arr mem hd hge]; exact ⟨h1, h2⟩
        | true =>
          rw [dynarr_push_grow arr mem hd hge]
          have := capacity_shiftLeft_one arr.capacity
          exact ⟨by simp; omega, Or.inr (by simp; omega)⟩
      · rw [dynarr_push_fast rok arr mem hd (by omega)]
        exact ⟨by simp; omega, Or.inr hcap⟩
  | pop rok =>
    simp only [dynStep]
    by_cases h0 : arr.count = 0
    · rw [dynarr_pop_zero rok arr h0]; exact ⟨h1, h2⟩
    · by_cases hshrink : arr.count - 1 < arr.capacity >>> 2 ∧ arr.capacity > 8
      · obtain ⟨hlt, hgt⟩ := hshrink
        rw [capacity_shiftRight_two] at hlt
        cases rok with
        | false =>
          rw [dynarr_pop_shrink_fail arr h0 ⟨by rw [capacity_shiftRight_two]; exact hlt, hgt⟩]
          exact ⟨by simp; omega, by simpa using h2⟩
        | true =>
          rw [dynarr_pop_shrink arr h0 ⟨by rw [capacity_shiftRight_two]; exact hlt, hgt⟩]
          have := capacity_shiftRight_one arr.capacity
          exact ⟨by simp; omega, Or.inr (by simp; omega)⟩
      · rw [dynarr_pop_plain rok arr h0 hshrink]
        exact ⟨by simp; omega, by simpa using h2⟩
  | clear =>
    exact ⟨Nat.zero_le _, h2⟩

/-- Growable-array capacity-shape invariant: once the buffer is non-null
and the capacity has the form 8 * 2 ^ k, every operation preserves that
shape (growth doubles, the shrink path halves only capacities above 8). -/
theorem dynStep_pow_inv (arr : DynArray) (op : DynOp)
    (h2 : arr.data ≠ none) (h3 : ∃ k, arr.capacity = 8 * 2 ^ k) :
    (dynStep arr op).data ≠ none ∧ ∃ k, (dynStep arr op).capacity = 8 * 2 ^ k := by
  obtain ⟨k, hk⟩ := h3
  cases op with
  | push rok =>
    simp only [dynStep]
    cases hd : arr.data with
    | none => exact absurd hd h2
    | some mem =>
      by_cases hge : arr.count ≥ arr.capacity
      · cases rok with
        | false => rw [dynarr_push_grow_fail arr mem hd hge]; exact ⟨h2, k, hk⟩
        | true =>
          rw [dynarr_push_grow arr mem hd hge]
          refine ⟨by simp, k + 1, ?_⟩
          simp only [capacity_shiftLeft_one, hk]
          ring
      · rw [dynarr_push_fast rok arr mem hd (by omega)]
        exact ⟨by simp, k, hk⟩
  | pop rok =>
    simp only [dynStep]
    by_cases h0 : arr.count = 0
    · rw [dynarr_pop_zero rok arr h0]; exact ⟨h2, k, hk⟩
    · by_cases hshrink : arr.count - 1 < arr.capacity >>> 2 ∧ arr.capacity > 8
      · cases rok with
        | false =>
          rw [dynarr_pop_shrink_fail arr h0 hshrink]
          exact ⟨h2, k, hk⟩
        | true =>
          rw [dynarr_pop_shrink arr h0 hshrink]
          have hgt := hshrink.2
          have hkpos : k ≠ 0 := by
            intro h0k
            rw [h0k, pow_zero, mul_one] at hk
            omega
          obtain ⟨j, hj⟩ := Nat.exists_eq_succ_of_ne_zero hkpos
          refine ⟨by simp, j, ?_⟩
          simp only [capacity_shiftRight_one, hk, hj, pow_succ]
          omega
      · rw [dynarr_pop_plain rok arr h0 hshrink]
        exact ⟨h2, k, hk⟩
  | clear =>
    exact ⟨h2, k, hk⟩

/-- C1 (amended): for all sequences of operations on a growable array,
count is at most capacity after every operation (including a failed
create, whose zero handle every operation leaves inert).  create
substitutes the default capacity 8 only when the requested initial
capacity is zero, and for an array created with the defaulted capacity the
capacity never falls below the floor of 8 (pop only halves capacities of
the form 8 * 2 ^ k that exceed 8). -/
theorem C1_dynarr_invariants (element_size initial_capacity : Nat) (mallocOk : Bool)
    (ops : List DynOp) :
    (∀ s ∈ dynStates (dynarr_create element_size initial_capacity mallocOk) ops,
      s.count ≤ s.capacity) ∧
    ((dynarr_create element_size initial_capacity true).capacity =
      if initial_capacity = 0 then 8 else initial_capacity) ∧
    (∀ s ∈ dynStates (dynarr_create element_size 0 true) ops, 8 ≤ s.capacity) := by
  refine ⟨?_, ?_, ?_⟩
  · have hinit : (dynarr_create element_size initial_capacity mallocOk).count ≤
        (dynarr_create element_size initial_capacity mallocOk).capacity ∧
        ((dynarr_create element_size initial_capacity mallocOk).data = none ∨
          1 ≤ (dynarr_create element_size initial_capacity mallocOk).capacity) := by
      unfold dynarr_create
      cases mallocOk with
      | false => exact ⟨Nat.le_refl _, Or.inl rfl⟩
      | true =>
        refine ⟨Nat.zero_le _, Or.inr ?_⟩
        by_cases h : initial_capacity = 0 <;> (simp [h]; (try omega))
    intro s hs
    exact (scanl_all_of_preserved
      (fun s => s.count ≤ s.capacity ∧ (s.data = none ∨ 1 ≤ s.capacity))
      dynStep (fun a b hab => dynStep_basic_inv a b hab.1 hab.2) ops _ hinit s hs).1
  · unfold dynarr_create
    by_cases h : initial_capacity = 0 <;> simp [h]
  · have hinit : (dynarr_create element_size 0 true).data ≠ none ∧
        ∃ k, (dynarr_create element_size 0 true).capacity = 8 * 2 ^ k := by
      unfold dynarr_create
      exact ⟨by simp, 0, by simp⟩
    intro s hs
    have := scanl_all_of_preserved
      (fun s => s.data ≠ none ∧ ∃ k, s.capacity = 8 * 2 ^ k)
      dynStep (fun a b hab => dynStep_pow_inv a b hab.1 hab.2) ops _ hinit s hs
    obtain ⟨-, k, hk⟩ := this
    have h1 : 1 ≤ 2 ^ k := Nat.one_le_pow k 2 (by norm_num)
    omega

/-- arena_alloc never moves the cursor backwards. -/
theorem arena_alloc_offset_mono (dbg rok : Bool) (a : Arena) (sz : Nat) :
    a.offset ≤ (arena_alloc dbg rok a sz).2.offset := by
  unfold arena_alloc
  split_ifs <;> simp <;> (try split_ifs) <;> simp

/-- arena_alloc keeps the cursor inside the (possibly grown) region. -/
theorem arena_alloc_offset_le_size (dbg rok : Bool) (a : Arena) (sz : Nat)
    (h : a.offset ≤ a.size) :
    (arena_alloc dbg rok a sz).2.offset ≤ (arena_alloc dbg rok a sz).2.size := by
  unfold arena_alloc
  split_ifs <;> simp [capacity_shiftLeft_one] <;> (try split_ifs) <;>
    (try simp [capacity_shiftLeft_one]) <;> omega

/-- arena_alloc on a live arena with a successful realloc returns the old
cursor as the allocation and keeps the arena live. -/
theorem arena_alloc_live_ok (dbg : Bool) (a : Arena) (sz : Nat)
    (halive : a.magic = ARENA_MAGIC_ALIVE) (hmem : a.memory = true) :
    (arena_alloc dbg true a sz).1 = .ptr a.offset ∧
    (arena_alloc dbg true a sz).2.magic = ARENA_MAGIC_ALIVE ∧
    (arena_alloc dbg true a sz).2.memory = true ∧
    (arena_alloc dbg true a sz).2.offset = a.offset + alignUp sz ∧
    (arena_alloc dbg true a sz).2.size =
      (if a.size < a.offset + alignUp sz then
        (if a.size <<< 1 < a.offset + alignUp sz then a.offset + alignUp sz
         else a.size <<< 1)
       else a.size) := by
  have hne : ¬ a.magic = ARENA_MAGIC_DEAD := by
    rw [halive]; decide
  unfold arena_alloc
  rw [if_neg hne, if_neg (by rw [halive, hmem]; simp [ARENA_MAGIC_ALIVE])]
  by_cases hgrow : a.offset + alignUp sz > a.size
  · rw [if_pos hgrow, if_pos rfl]
    refine ⟨rfl, halive, hmem, rfl, ?_⟩
    rw [if_pos (by omega)]
  · rw [if_neg hgrow]
    refine ⟨rfl, halive, hmem, rfl, ?_⟩
    rw [if_neg (by omega)]

/-- C2: on an allocator created by arena_create, over any sequence of
arena_alloc calls (each with its realloc-success outcome) the offset
cursor is monotonically non-decreasing from state to state and satisfies
offset <= size after every call, size being the current backing-region
size. -/
theorem C2_arena_offset_monotone (dbg : Bool) (initial_size : Nat) (a : Arena)
    (hc : arena_create initial_size true true = some a) (reqs : List (Nat × Bool)) :
    List.Chain' (fun x y => x.offset ≤ y.offset) (arenaStates dbg a reqs) ∧
    ∀ s ∈ arenaStates dbg a reqs, s.offset ≤ s.size := by
  have ha : a.offset ≤ a.size := by
    unfold arena_create at hc
    simp only [Bool.true_eq_false, if_false, Option.some.injEq] at hc
    subst hc
    exact Nat.zero_le _
  constructor
  · exact scanl_chain _ _ (fun x r => arena_alloc_offset_mono dbg r.2 x r.1) reqs a
  · exact scanl_all_of_preserved (fun s => s.offset ≤ s.size) (arenaStep dbg)
      (fun x r h => arena_alloc_offset_le_size dbg r.2 x r.1 h) reqs a ha

theorem C2_arena_offset_monotone_witness :
    arena_create 16 true true = some ⟨ARENA_MAGIC_ALIVE, true, 16, 0⟩ ∧
    (List.Chain' (fun x y => x.offset ≤ y.offset)
      (arenaStates false ⟨ARENA_MAGIC_ALIVE, true, 16, 0⟩ [(10, true), (10, true)]) ∧
     ∀ s ∈ arenaStates false ⟨ARENA_MAGIC_ALIVE, true, 16, 0⟩ [(10, true), (10, true)],
       s.offset ≤ s.size) :=
  ⟨by decide,
   C2_arena_offset_monotone false 16 ⟨ARENA_MAGIC_ALIVE, true, 16, 0⟩ (by decide)
     [(10, true), (10, true)]⟩

/-- C3: on a live arena, arena_alloc rounds the requested size up to the
least multiple of the platform's maximum scalar alignment and advances the
cursor by exactly that aligned amount; when the aligned request does not
fit, the region size doubles, or becomes exactly offset + aligned size if
doubling is still insufficient, and with the realloc succeeding the
allocation succeeds (returning the old cursor) against the grown
region. -/
theorem C3_arena_alloc_align_and_growth (dbg : Bool) (a : Arena) (sz : Nat)
    (halive : a.magic = ARENA_MAGIC_ALIVE) (hmem : a.memory = true) :
    alignUp sz % maxAlign = 0 ∧ sz ≤ alignUp sz ∧ alignUp sz < sz + maxAlign ∧
    (arena_alloc dbg true a sz).1 = .ptr a.offset ∧
    (arena_alloc dbg true a sz).2.offset = a.offset + alignUp sz ∧
    (arena_alloc dbg true a sz).2.size =
      (if a.size < a.offset + alignUp sz then
        (if a.size <<< 1 < a.offset + alignUp sz then a.offset + alignUp sz
         else a.size <<< 1)
       else a.size) := by
  obtain ⟨hm, hle, hlt⟩ := alignUp_bounds sz
  obtain ⟨hres, -, -, hoff, hsize⟩ := arena_alloc_live_ok dbg a sz halive hmem
  exact ⟨hm, hle, hlt, hres, hoff, hsize⟩

theorem C3_arena_alloc_align_and_growth_witness :
    arena16.magic = ARENA_MAGIC_ALIVE ∧ arena16.memory = true ∧
    (alignUp 24 % maxAlign = 0 ∧ 24 ≤ alignUp 24 ∧ alignUp 24 < 24 + maxAlign ∧
     (arena_alloc false true arena16 24).1 = .ptr arena16.offset ∧
     (arena_alloc false true arena16 24).2.offset = arena16.offset + alignUp 24 ∧
     (arena_alloc false true arena16 24).2.size =
       (if arena16.size < arena16.offset + alignUp 24 then
         (if arena16.size <<< 1 < arena16.offset + alignUp 24 then
            arena16.offset + alignUp 24
          else arena16.size <<< 1)
        else arena16.size)) :=
  ⟨rfl, rfl, C3_arena_alloc_align_and_growth false arena16 24 rfl rfl⟩

/-- C1 (counterexample): dynarr_create(1, 3) keeps the requested capacity 3,
below the floor of 8 (the default 8 is substituted only for a requested
capacity of zero); and on an array created with capacity 9, one push
followed by one pop halves the capacity to 4, below 8. -/
theorem C1_capacity_floor_counterexample :
    (dynarr_create 1 3 true).capacity = 3 ∧
    (dynStep (dynStep (dynarr_create 1 9 true) (.push true)) (.pop true)).capacity = 4 := by
  decide

theorem arena_is_valid_some (a : Arena) :
    arena_is_valid (some a) = true ↔ a.magic = ARENA_MAGIC_ALIVE ∧ a.memory = true := by
  simp [arena_is_valid]

/-- Full characterization of arena_alloc on a live arena with a successful
realloc, as one pair equation (convenient for reducing the callers'
matches). -/
theorem arena_alloc_live_eq (dbg : Bool) (a : Arena) (sz : Nat)
    (halive : a.magic = ARENA_MAGIC_ALIVE) (hmem : a.memory = true) :
    arena_alloc dbg true a sz =
      (.ptr a.offset,
        ⟨a.magic, a.memory,
         (if a.size < a.offset + alignUp sz then
           (if a.size <<< 1 < a.offset + alignUp sz then a.offset + alignUp sz
            else a.size <<< 1)
          else a.size),
         a.offset + alignUp sz⟩) := by
  have hne : ¬ a.magic = ARENA_MAGIC_DEAD := by
    rw [halive]; decide
  unfold arena_alloc
  rw [if_neg hne, if_neg (by rw [halive, hmem]; simp [ARENA_MAGIC_ALIVE])]
  by_cases hgrow : a.offset + alignUp sz > a.size
  · rw [if_pos hgrow, if_pos rfl, if_pos (by omega)]
  · rw [if_neg hgrow, if_neg (by omega)]

theorem memcmpSign_self : ∀ l : List Nat, memcmpSign l l = 0
  | [] => rfl
  | x :: xs => by
    unfold memcmpSign
    rw [if_neg (lt_irrefl x), if_neg (lt_irrefl x)]
    exact memcmpSign_self xs

theorem memcmpSign_antisymm : ∀ a b : List Nat, memcmpSign a b = - memcmpSign b a
  | [], [] => rfl
  | [], _ :: _ => rfl
  | _ :: _, [] => rfl
  | x :: xs, y :: ys => by
    unfold memcmpSign
    rcases Nat.lt_trichotomy x y with h | h | h
    · rw [if_pos h, if_neg (Nat.lt_asymm h), if_pos h]
    · subst h
      rw [if_neg (lt_irrefl x), if_neg (lt_irrefl x), if_neg (lt_irrefl x),
        if_neg (lt_irrefl x)]
      exact memcmpSign_antisymm xs ys
    · rw [if_neg (Nat.lt_asymm h), if_pos h, if_pos h]
      norm_num

theorem memcmpSign_eq_zero_iff : ∀ (a b : List Nat), a.length = b.length →
    (memcmpSign a b = 0 ↔ a = b)
  | [], [], _ => by simp [memcmpSign]
  | [], _ :: _, h => by simp at h
  | _ :: _, [], h => by simp at h
  | x :: xs, y :: ys, h => by
    unfold memcmpSign
    rcases Nat.lt_trichotomy x y with hxy | hxy | hxy
    · rw [if_pos hxy]
      constructor
      · intro h0
        exact absurd h0 (by norm_num)
      · intro he
        injection he with h1 h2
        omega
    · subst hxy
      rw [if_neg (lt_irrefl x), if_neg (lt_irrefl x)]
      have ih := memcmpSign_eq_zero_iff xs ys (by simpa using h)
      constructor
      · intro h0
        rw [ih.mp h0]
      · intro he
        injection he with h1 h2
        exact ih.mpr h2
    · rw [if_neg (Nat.lt_asymm hxy), if_pos hxy]
      constructor
      · intro h0
        exact absurd h0 (by norm_num)
      · intro he
        injection he with h1 h2
        omega

theorem memcmpSign_trans : ∀ (a b c : List Nat), a.length = b.length →
    b.length = c.length →
    memcmpSign a b ≤ 0 → memcmpSign b c ≤ 0 → memcmpSign a c ≤ 0
  | [], [], [], _, _, _, _ => by simp [memcmpSign]
  | [], _ :: _, _, hab, _, _, _ => by simp at hab
  | _ :: _, [], _, hab, _, _, _ => by simp at hab
  | _ :: _, _ :: _, [], _, hbc, _, _ => by simp at hbc
  | x :: xs, y :: ys, z :: zs, hab, hbc, h1, h2 => by
    unfold memcmpSign at h1 h2 ⊢
    rcases Nat.lt_trichotomy x y with hxy | hxy | hxy
    · rcases Nat.lt_trichotomy y z with hyz | hyz | hyz
      · rw [if_pos (hxy.trans hyz)]
        norm_num
      · subst hyz
        rw [if_pos hxy]
        norm_num
      · rw [if_neg (Nat.lt_asymm hyz), if_pos hyz] at h2
        exact absurd h2 (by norm_num)
    · subst hxy
      rw [if_neg (lt_irrefl x), if_neg (lt_irrefl x)] at h1
      rcases Nat.lt_trichotomy x z with hyz | hyz | hyz
      · rw [if_pos hyz]
        norm_num
      · subst hyz
        rw [if_neg (lt_irrefl x), if_neg (lt_irrefl x)] at h2 ⊢
        exact memcmpSign_trans xs ys zs (by simpa using hab) (by simpa using hbc) h1 h2
      · rw [if_neg (Nat.lt_asymm hyz), if_pos hyz] at h2
        exact absurd h2 (by norm_num)
    · rw [if_neg (Nat.lt_asymm hxy), if_pos hxy] at h1
      exact absurd h1 (by norm_num)

/-- For a well-formed string, the cached length equals the number of
content bytes. -/
theorem Str.bytes_length (s : Str) (h : s.WF) : s.bytes.length = s.len := by
  unfold Str.WF at h
  unfold Str.bytes
  simp [List.length_take]
  omega

/-- str_cmp on equal-length strings is the memcmp sign of their content
bytes. -/
theorem str_cmp_eq_len (x y : Str) (h : x.len = y.len) :
    str_cmp x y = memcmpSign x.bytes y.bytes := by
  unfold str_cmp Str.bytes
  rw [if_neg (by omega),
    show (y.data.getD []).take x.len = (y.data.getD []).take y.len from by rw [h]]

/-- str_cmp on strings of different lengths is decided by the lengths
alone. -/
theorem str_cmp_ne_len (x y : Str) (h : x.len ≠ y.len) :
    str_cmp x y = (if x.len < y.len then -1 else 1) := by
  unfold str_cmp
  rw [if_pos h]

/-- C6: str_cmp orders first by length (shorter precedes longer) and for
equal lengths by byte-wise lexicographic comparison; it returns 0 exactly
when lengths and content bytes are identical; it is reflexive (compare of
a string with itself is 0), antisymmetric (the comparison of x with y is
the negation of the comparison of y with x), and the induced order
(compare at most 0) is transitive. -/
theorem C6_str_cmp_order (x y z : Str) (hx : x.WF) (hy : y.WF) (hz : z.WF) :
    str_cmp x x = 0 ∧
    str_cmp x y = - str_cmp y x ∧
    (str_cmp x y ≤ 0 → str_cmp y z ≤ 0 → str_cmp x z ≤ 0) ∧
    (str_cmp x y = 0 ↔ x.len = y.len ∧ x.bytes = y.bytes) ∧
    (x.len < y.len → str_cmp x y = -1) ∧
    (y.len < x.len → str_cmp x y = 1) ∧
    (x.len = y.len → str_cmp x y = memcmpSign x.bytes y.bytes) := by
  have hbx := Str.bytes_length x hx
  have hby := Str.bytes_length y hy
  have hbz := Str.bytes_length z hz
  refine ⟨?_, ?_, ?_, ?_, ?_, ?_, str_cmp_eq_len x y⟩
  · rw [str_cmp_eq_len x x rfl]
    exact memcmpSign_self _
  · by_cases h : x.len = y.len
    · rw [str_cmp_eq_len x y h, str_cmp_eq_len y x h.symm]
      exact memcmpSign_antisymm _ _
    · rw [str_cmp_ne_len x y h, str_cmp_ne_len y x (by omega)]
      rcases Nat.lt_or_ge x.len y.len with hlt | hge
      · rw [if_pos hlt, if_neg (by omega)]
      · rw [if_neg (by omega), if_pos (by omega)]
        norm_num
  · intro h1 h2
    by_cases hxy : x.len = y.len
    · by_cases hyz : y.len = z.len
      · rw [str_cmp_eq_len x y hxy] at h1
        rw [str_cmp_eq_len y z hyz] at h2
        rw [str_cmp_eq_len x z (hxy.trans hyz)]
        exact memcmpSign_trans x.bytes y.bytes z.bytes (by omega) (by omega) h1 h2
      · rw [str_cmp_ne_len y z hyz] at h2
        have hyltz : y.len < z.len := by
          by_contra hc
          rw [if_neg hc] at h2
          exact absurd h2 (by norm_num)
        rw [str_cmp_ne_len x z (by omega), if_pos (by omega)]
        norm_num
    · rw [str_cmp_ne_len x y hxy] at h1
      have hxlty : x.len < y.len := by
        by_contra hc
        rw [if_neg hc] at h1
        exact absurd h1 (by norm_num)
      by_cases hyz : y.len = z.len
      · rw [str_cmp_ne_len x z (by omega), if_pos (by omega)]
        norm_num
      · rw [str_cmp_ne_len y z hyz] at h2
        have hyltz : y.len < z.len := by
          by_contra hc
          rw [if_neg hc] at h2
          exact absurd h2 (by norm_num)
        rw [str_cmp_ne_len x z (by omega), if_pos (by omega)]
        norm_num
  · by_cases h : x.len = y.len
    · rw [str_cmp_eq_len x y h]
      rw [memcmpSign_eq_zero_iff x.bytes y.bytes (by omega)]
      constructor
      · exact fun hb => ⟨h, hb⟩
      · exact fun hb => hb.2
    · rw [str_cmp_ne_len x y h]
      constructor
      · intro h0
        split_ifs at h0
        all_goals exact absurd h0 (by norm_num)
      · intro hb
        exact absurd hb.1 h
  · intro hlt
    rw [str_cmp_ne_len x y (by omega), if_pos hlt]
  · intro hlt
    rw [str_cmp_ne_len x y (by omega), if_neg (by omega)]

theorem C6_str_cmp_order_witness :
    (⟨some [1, 0], 1⟩ : Str).WF ∧ (⟨some [2, 0], 1⟩ : Str).WF ∧
      (⟨some [1, 2, 0], 2⟩ : Str).WF ∧
    (str_cmp ⟨some [1, 0], 1⟩ ⟨some [1, 0], 1⟩ = 0 ∧
     str_cmp ⟨some [1, 0], 1⟩ ⟨some [2, 0], 1⟩ =
       - str_cmp ⟨some [2, 0], 1⟩ ⟨some [1, 0], 1⟩ ∧
     (str_cmp ⟨some [1, 0], 1⟩ ⟨some [2, 0], 1⟩ ≤ 0 →
      str_cmp ⟨some [2, 0], 1⟩ ⟨some [1, 2, 0], 2⟩ ≤ 0 →
      str_cmp ⟨some [1, 0], 1⟩ ⟨some [1, 2, 0], 2⟩ ≤ 0) ∧
     (str_cmp ⟨some [1, 0], 1⟩ ⟨some [2, 0], 1⟩ = 0 ↔
       (⟨some [1, 0], 1⟩ : Str).len = (⟨some [2, 0], 1⟩ : Str).len ∧
       (⟨some [1, 0], 1⟩ : Str).bytes = (⟨some [2, 0], 1⟩ : Str).bytes) ∧
     ((⟨some [1, 0], 1⟩ : Str).len < (⟨some [2, 0], 1⟩ : Str).len →
       str_cmp ⟨some [1, 0], 1⟩ ⟨some [2, 0], 1⟩ = -1) ∧
     ((⟨some [2, 0], 1⟩ : Str).len < (⟨some [1, 0], 1⟩ : Str).len →
       str_cmp ⟨some [1, 0], 1⟩ ⟨some [2, 0], 1⟩ = 1) ∧
     ((⟨some [1, 0], 1⟩ : Str).len = (⟨some [2, 0], 1⟩ : Str).len →
       str_cmp ⟨some [1, 0], 1⟩ ⟨some [2, 0], 1⟩ =
         memcmpSign (⟨some [1, 0], 1⟩ : Str).bytes (⟨some [2, 0], 1⟩ : Str).bytes)) :=
  ⟨by decide, by decide, by decide,
   C6_str_cmp_order ⟨some [1, 0], 1⟩ ⟨some [2, 0], 1⟩ ⟨some [1, 2, 0], 2⟩
     (by decide) (by decide) (by decide)⟩

/-- dynarr_get with a non-null buffer and an in-range index returns the
slot pointer in both configurations. -/
theorem dynarr_get_valid (dbg : Bool) (arr : DynArray) (mem : List Nat) (i : Nat)
    (hd : arr.data = some mem) (hi : i < arr.count) :
    dynarr_get dbg arr i = .ptr (i * arr.element_size) := by
  unfold dynarr_get
  rw [hd]
  rw [if_neg (fun h => absurd h.2 (by omega)), if_pos hi]

/-- dynarr_pop on a nonempty array always decrements count by one,
whatever the shrink path does. -/
theorem dynarr_pop_count (rok : Bool) (arr : DynArray) (h0 : arr.count ≠ 0) :
    (dynarr_pop rok arr).count = arr.count - 1 := by
  by_cases hs : arr.count - 1 < arr.capacity >>> 2 ∧ arr.capacity > 8
  · cases rok with
    | true => rw [dynarr_pop_shrink arr h0 hs]
    | false => rw [dynarr_pop_shrink_fail arr h0 hs]
  · rw [dynarr_pop_plain rok arr h0 hs]

/-- C8: a successful push returns the pointer to slot count (byte offset
count * element_size), which is in bounds of the (possibly regrown)
buffer; after the caller stores element bytes v through that pointer, get
at index count - 1 (the new last index) returns that same pointer, the
bytes read there are exactly v, and a pop immediately after the push
restores the count to its value before the push. -/
theorem C8_push_write_get_pop (dbg rok : Bool) (arr : DynArray) (mem v : List Nat)
    (hd : arr.data = some mem)
    (hcnt : arr.count ≤ arr.capacity) (hcap : 0 < arr.capacity)
    (hlen : mem.length = arr.element_size * arr.capacity)
    (hv : v.length = arr.element_size) :
    ∃ arr1, dynarr_push true arr = (.ptr (arr.count * arr.element_size), arr1) ∧
      arr1.count = arr.count + 1 ∧
      arr.count * arr.element_size + v.length ≤ (arr1.data.getD []).length ∧
      dynarr_get dbg (dynWrite arr1 (arr.count * arr.element_size) v)
          ((dynWrite arr1 (arr.count * arr.element_size) v).count - 1) =
        .ptr (arr.count * arr.element_size) ∧
      readBytes ((dynWrite arr1 (arr.count * arr.element_size) v).data.getD [])
          (arr.count * arr.element_size) v.length = v ∧
      (dynarr_pop rok (dynWrite arr1 (arr.count * arr.element_size) v)).count =
        arr.count := by
  by_cases hge : arr.count ≥ arr.capacity
  · refine ⟨_, dynarr_push_grow arr mem hd hge, rfl, ?_, ?_, ?_, ?_⟩
    · show arr.count * arr.element_size + v.length ≤
        (reallocBytes mem (arr.element_size * (arr.capacity <<< 1))).length
      rw [reallocBytes_length, capacity_shiftLeft_one]
      calc arr.count * arr.element_size + v.length
          = (arr.count + 1) * arr.element_size := by rw [hv]; ring
        _ ≤ (arr.capacity * 2) * arr.element_size :=
            Nat.mul_le_mul_right _ (by omega)
        _ = arr.element_size * (arr.capacity * 2) := by ring
    · exact dynarr_get_valid dbg _ _ _ rfl
        (show arr.count < arr.count + 1 by omega)
    · exact readBytes_writeBytes _ v _ (by
        rw [reallocBytes_length, capacity_shiftLeft_one]
        calc arr.count * arr.element_size
            ≤ (arr.capacity * 2) * arr.element_size :=
              Nat.mul_le_mul_right _ (by omega)
          _ = arr.element_size * (arr.capacity * 2) := by ring)
    · rw [dynarr_pop_count rok _ (show arr.count + 1 ≠ 0 by omega)]
      rfl
  · have hlt : arr.count < arr.capacity := by omega
    refine ⟨_, dynarr_push_fast true arr mem hd hlt, rfl, ?_, ?_, ?_, ?_⟩
    · show arr.count * arr.element_size + v.length ≤ mem.length
      rw [hlen, hv]
      calc arr.count * arr.element_size + arr.element_size
          = (arr.count + 1) * arr.element_size := by ring
        _ ≤ arr.capacity * arr.element_size := Nat.mul_le_mul_right _ (by omega)
        _ = arr.element_size * arr.capacity := by ring
    · exact dynarr_get_valid dbg _ _ _ rfl
        (show arr.count < arr.count + 1 by omega)
    · exact readBytes_writeBytes _ v _ (by
        rw [hlen]
        calc arr.count * arr.element_size
            ≤ arr.capacity * arr.element_size := Nat.mul_le_mul_right _ (by omega)
          _ = arr.element_size * arr.capacity := by ring)
    · rw [dynarr_pop_count rok _ (show arr.count + 1 ≠ 0 by omega)]
      rfl

theorem C8_push_write_get_pop_witness :
    (dynarr_create 1 0 true).data = some (List.replicate 8 0) ∧
    (dynarr_create 1 0 true).count ≤ (dynarr_create 1 0 true).capacity ∧
    0 < (dynarr_create 1 0 true).capacity ∧
    (List.replicate 8 0 : List Nat).length =
      (dynarr_create 1 0 true).element_size * (dynarr_create 1 0 true).capacity ∧
    ([42] : List Nat).length = (dynarr_create 1 0 true).element_size ∧
    ∃ arr1, dynarr_push true (dynarr_create 1 0 true) =
        (.ptr ((dynarr_create 1 0 true).count * (dynarr_create 1 0 true).element_size),
          arr1) ∧
      arr1.count = (dynarr_create 1 0 true).count + 1 ∧
      (dynarr_create 1 0 true).count * (dynarr_create 1 0 true).element_size +
          ([42] : List Nat).length ≤ (arr1.data.getD []).length ∧
      dynarr_get false
          (dynWrite arr1
            ((dynarr_create 1 0 true).count * (dynarr_create 1 0 true).element_size) [42])
          ((dynWrite arr1
            ((dynarr_create 1 0 true).count * (dynarr_create 1 0 true).element_size)
            [42]).count - 1) =
        .ptr ((dynarr_create 1 0 true).count * (dynarr_create 1 0 true).element_size) ∧
      readBytes
          ((dynWrite arr1
            ((dynarr_create 1 0 true).count * (dynarr_create 1 0 true).element_size)
            [42]).data.getD [])
          ((dynarr_create 1 0 true).count * (dynarr_create 1 0 true).element_size)
          ([42] : List Nat).length = [42] ∧
      (dynarr_pop true
          (dynWrite arr1
            ((dynarr_create 1 0 true).count * (dynarr_create 1 0 true).element_size)
            [42])).count = (dynarr_create 1 0 true).count :=
  ⟨by decide, by decide, by decide, by decide, by decide,
   C8_push_write_get_pop false true (dynarr_create 1 0 true) (List.replicate 8 0) [42]
     (by decide) (by decide) (by decide) (by decide) (by decide)⟩

/-- An in-bounds write leaves the buffer length unchanged. -/
theorem writeBytes_length (mem v : List Nat) (off : Nat)
    (h : off + v.length ≤ mem.length) :
    (writeBytes mem off v).length = mem.length := by
  simp [writeBytes, List.length_take, List.length_drop]
  omega

/-- Reading from the write offset sees the written bytes followed by the
untouched tail. -/
theorem writeBytes_drop (mem v : List Nat) (off : Nat) (h : off ≤ mem.length) :
    (writeBytes mem off v).drop off = v ++ mem.drop (off + v.length) := by
  unfold writeBytes
  rw [List.append_assoc, List.drop_append_of_le_length (by simp [List.length_take]; omega)]
  have hnil : (mem.take off).drop off = [] :=
    List.drop_eq_nil_of_le (by simp [List.length_take])
  rw [hnil, List.nil_append]

/-- A read that ends at or below the write offset is unaffected by the
write. -/
theorem writeBytes_drop_take_below (mem v : List Nat) (off off2 n : Nat)
    (hn : off + n ≤ off2) (h2 : off2 ≤ mem.length) :
    ((writeBytes mem off2 v).drop off).take n = (mem.drop off).take n := by
  unfold writeBytes
  rw [List.append_assoc, List.drop_append_of_le_length (by simp [List.length_take]; omega),
    List.take_append_of_le_length (by simp [List.length_take, List.length_drop]; omega),
    List.drop_take, List.take_take]
  congr 1
  omega

/-- arena_allocM on a live arena when the aligned request fits: the region
is untouched (same bytes, same generation) and only the cursor moves. -/
theorem arena_allocM_fit (dbg : Bool) (A : ArenaMem) (sz : Nat)
    (hm : A.arena.magic = ARENA_MAGIC_ALIVE) (hmem : A.arena.memory = true)
    (hfit : A.arena.offset + alignUp sz ≤ A.arena.size) :
    arena_allocM dbg true A sz =
      (.ptr A.arena.offset,
       ⟨⟨A.arena.magic, A.arena.memory, A.arena.size,
         A.arena.offset + alignUp sz⟩, A.bytes, A.gen⟩) := by
  unfold arena_allocM
  rw [arena_alloc_live_eq dbg A.arena sz hm hmem]
  simp only
  rw [if_neg (show ¬(A.arena.size < A.arena.offset + alignUp sz) from by omega),
    if_neg (lt_irrefl A.arena.size)]

/-- arena_allocM on a live arena when the aligned request does not fit and
the realloc succeeds: the allocation succeeds but the generation
increments — every pointer into the old region is now dangling. -/
theorem arena_allocM_grow_gen (dbg : Bool) (A : ArenaMem) (sz : Nat)
    (hm : A.arena.magic = ARENA_MAGIC_ALIVE) (hmem : A.arena.memory = true)
    (hgrow : A.arena.size < A.arena.offset + alignUp sz) :
    ∃ A1, arena_allocM dbg true A sz = (.ptr A.arena.offset, A1) ∧
      A1.gen = A.gen + 1 := by
  unfold arena_allocM
  rw [arena_alloc_live_eq dbg A.arena sz hm hmem]
  simp only
  rw [if_pos (show A.arena.size <
      (if A.arena.size < A.arena.offset + alignUp sz then
        (if A.arena.size <<< 1 < A.arena.offset + alignUp sz then
          A.arena.offset + alignUp sz else A.arena.size <<< 1)
       else A.arena.size) from by
    rw [if_pos hgrow]
    have := capacity_shiftLeft_one A.arena.size
    split_ifs <;> omega)]
  exact ⟨_, rfl, rfl⟩

theorem arena_is_validM_some (A : ArenaMem)
    (hm : A.arena.magic = ARENA_MAGIC_ALIVE) (hmem : A.arena.memory = true) :
    arena_is_validM (some A) = true := by
  unfold arena_is_validM
  exact (arena_is_valid_some A.arena).mpr ⟨hm, hmem⟩

/-- str_copyM on a live arena, nonzero length, a readable source of
sufficient length, and an allocation that fits in the current region: the
copy succeeds, writing the source bytes plus terminator at the old cursor
of the unmoved region. -/
theorem str_copyM_fit (dbg : Bool) (A : ArenaMem) (p : CPtr) (src : List Nat) (n : Nat)
    (hm : A.arena.magic = ARENA_MAGIC_ALIVE) (hmem : A.arena.memory = true)
    (hn : n ≠ 0)
    (hfit : A.arena.offset + alignUp (n + 1) ≤ A.arena.size)
    (hread : readPtr A p = some src) (hsrc : n ≤ src.length) :
    str_copyM dbg true (some A) (some p) n =
      .ok ⟨some (.arena A.gen A.arena.offset), n⟩
        (some ⟨⟨A.arena.magic, A.arena.memory, A.arena.size,
                A.arena.offset + alignUp (n + 1)⟩,
               writeBytes A.bytes A.arena.offset (src.take n ++ [0]), A.gen⟩) := by
  have hv := arena_is_validM_some A hm hmem
  simp only [str_copyM]
  rw [if_neg (by simp [hv, hn])]
  rw [arena_allocM_fit dbg A (n + 1) hm hmem hfit]
  have hr1 : readPtr (⟨⟨A.arena.magic, A.arena.memory, A.arena.size,
      A.arena.offset + alignUp (n + 1)⟩, A.bytes, A.gen⟩ : ArenaMem) p = some src :=
    hread
  simp only [hr1]
  rw [if_neg (by omega)]

/-- str_copyM on a live arena, nonzero length, from an arena pointer of
any past-or-present generation, when the allocation must grow the region:
the realloc frees the source's region before the memcpy reads it —
undefined behavior. -/
theorem str_copyM_grow_stale (dbg : Bool) (A : ArenaMem) (g off n : Nat)
    (hm : A.arena.magic = ARENA_MAGIC_ALIVE) (hmem : A.arena.memory = true)
    (hn : n ≠ 0) (hg : g ≤ A.gen)
    (hgrow : A.arena.size < A.arena.offset + alignUp (n + 1)) :
    str_copyM dbg true (some A) (some (.arena g off)) n = .ub := by
  have hv := arena_is_validM_some A hm hmem
  simp only [str_copyM]
  rw [if_neg (by simp [hv, hn])]
  obtain ⟨A1, hA1, hgen⟩ := arena_allocM_grow_gen dbg A (n + 1) hm hmem hgrow
  rw [hA1]
  have hnone : readPtr A1 (.arena g off) = none := by
    simp only [readPtr]
    rw [if_neg (by omega)]
  simp only [hnone]

/-- str_concatM of two nonempty strings on a live arena, with both sources
readable at sufficient length and a fitting allocation: the joined bytes
plus terminator are written at the old cursor of the unmoved region. -/
theorem str_concatM_fit (dbg : Bool) (A : ArenaMem)
    (pa pb : CPtr) (la lb : Nat) (sa sb : List Nat)
    (hm : A.arena.magic = ARENA_MAGIC_ALIVE) (hmem : A.arena.memory = true)
    (hla : la ≠ 0) (hlb : lb ≠ 0)
    (hfit : A.arena.offset + alignUp (la + lb + 1) ≤ A.arena.size)
    (hra : readPtr A pa = some sa) (hrb : readPtr A pb = some sb)
    (hsa : la ≤ sa.length) (hsb : lb ≤ sb.length) :
    str_concatM dbg true (some A) ⟨some pa, la⟩ ⟨some pb, lb⟩ =
      .ok ⟨some (.arena A.gen A.arena.offset), la + lb⟩
        (some ⟨⟨A.arena.magic, A.arena.memory, A.arena.size,
                A.arena.offset + alignUp (la + lb + 1)⟩,
               writeBytes A.bytes A.arena.offset
                 (sa.take la ++ (sb.take lb ++ [0])), A.gen⟩) := by
  have hv := arena_is_validM_some A hm hmem
  simp only [str_concatM]
  rw [if_neg (by simp [hv]), if_neg hla, if_neg hlb]
  rw [arena_allocM_fit dbg A (la + lb + 1) hm hmem hfit]
  have hr1 : readPtr (⟨⟨A.arena.magic, A.arena.memory, A.arena.size,
      A.arena.offset + alignUp (la + lb + 1)⟩, A.bytes, A.gen⟩ : ArenaMem) pa =
      some sa := hra
  have hr2 : readPtr (⟨⟨A.arena.magic, A.arena.memory, A.arena.size,
      A.arena.offset + alignUp (la + lb + 1)⟩, A.bytes, A.gen⟩ : ArenaMem) pb =
      some sb := hrb
  simp only [hr1, hr2]
  rw [if_neg (by push_neg; omega)]

/-- C9: str_copy on a live allocator with a non-null data pointer and
length 0 returns the zero sentinel (Str){0} (null data pointer, length 0)
before touching the allocator — the state is unchanged and nothing is
allocated or read — so a zero-length copy is indistinguishable from a
failure at the public interface. -/
theorem C9_str_copy_zero_len (dbg rok : Bool) (A : Option ArenaMem) (p : CPtr)
    (_hv : arena_is_validM A = true) :
    str_copyM dbg rok A (some p) 0 = .ok ⟨none, 0⟩ A := by
  simp [str_copyM]

theorem C9_str_copy_zero_len_witness :
    arena_is_validM (some arenaMem16) = true ∧
    str_copyM false true (some arenaMem16) (some (.ext [7])) 0 =
      .ok ⟨none, 0⟩ (some arenaMem16) :=
  ⟨by decide, C9_str_copy_zero_len false true (some arenaMem16) (.ext [7]) (by decide)⟩

/-- C4 (amended): for a string s resident at the current generation of a
live allocator's region, str_substr fails (returns the empty/invalid
sentinel with the allocator untouched) exactly when start is at or past
s's length or the requested length is 0 (a zero-byte result is represented
by the sentinel, as zero-length copies always fail); otherwise the length
is clamped to min(length, len(s) - start) so the range never passes s's
end and, provided the internal allocation fits in the current region (no
relocation), the result holds exactly that many bytes, equal to s's bytes
from start; when the internal allocation must grow the region, the C
code's copy reads s through a pointer into the freed old region —
undefined behavior. -/
theorem C4_str_substr_spec (dbg : Bool) (A0 : ArenaMem) (s : StrP)
    (offS start len : Nat)
    (hm : A0.arena.magic = ARENA_MAGIC_ALIVE) (hmem : A0.arena.memory = true)
    (hbytes : A0.bytes.length = A0.arena.size)
    (hs : s.data = some (.arena A0.gen offS))
    (hwf : offS + s.len ≤ A0.bytes.length) :
    ((str_substrM dbg true (some A0) s start len = .ok ⟨none, 0⟩ (some A0)) ↔
      (s.len ≤ start ∨ len = 0)) ∧
    (start < s.len → 0 < len →
      ((if start + len > s.len then s.len - start else len) =
        min len (s.len - start)) ∧
      (A0.arena.offset + alignUp (min len (s.len - start) + 1) ≤ A0.arena.size →
        ∃ A', str_substrM dbg true (some A0) s start len =
            .ok ⟨some (.arena A0.gen A0.arena.offset), min len (s.len - start)⟩
              (some A') ∧
          readN A' (.arena A0.gen A0.arena.offset) (min len (s.len - start)) =
            some ((((A0.bytes.drop offS).take s.len).drop start).take
              (min len (s.len - start)))) ∧
      (A0.arena.size < A0.arena.offset + alignUp (min len (s.len - start) + 1) →
        str_substrM dbg true (some A0) s start len = .ub)) := by
  have hvv := arena_is_validM_some A0 hm hmem
  by_cases hst : s.len ≤ start
  · have heq : str_substrM dbg true (some A0) s start len =
        .ok ⟨none, 0⟩ (some A0) := by
      unfold str_substrM
      rw [if_pos (Or.inr hst)]
    exact ⟨⟨fun _ => Or.inl hst, fun _ => heq⟩, fun h1 _ => absurd hst (by omega)⟩
  · push_neg at hst
    by_cases hz : len = 0
    · subst hz
      have heq : str_substrM dbg true (some A0) s start 0 =
          .ok ⟨none, 0⟩ (some A0) := by
        unfold str_substrM
        rw [if_neg (by simp [hvv]; omega),
          if_neg (show ¬(start + 0 > s.len) from by omega)]
        simp [str_copyM]
      exact ⟨⟨fun _ => Or.inr rfl, fun _ => heq⟩, fun _ h2 => absurd h2 (by omega)⟩
    · have hl' : (if start + len > s.len then s.len - start else len) =
          min len (s.len - start) := by
        split_ifs <;> omega
      have hlpos : min len (s.len - start) ≠ 0 := by omega
      have hsub : str_substrM dbg true (some A0) s start len =
          str_copyM dbg true (some A0) (some (.arena A0.gen (offS + start)))
            (min len (s.len - start)) := by
        unfold str_substrM
        rw [if_neg (by simp [hvv]; omega), hs]
        simp only [Option.map_some', ptrAdd, hl']
      by_cases hfit : A0.arena.offset + alignUp (min len (s.len - start) + 1) ≤
          A0.arena.size
      · have hread : readPtr A0 (.arena A0.gen (offS + start)) =
            some (A0.bytes.drop (offS + start)) := by
          simp [readPtr]
        have hsrc : min len (s.len - start) ≤ (A0.bytes.drop (offS + start)).length := by
          simp [List.length_drop]
          omega
        have hres := hsub.trans (str_copyM_fit dbg A0 (.arena A0.gen (offS + start))
          (A0.bytes.drop (offS + start)) (min len (s.len - start)) hm hmem hlpos hfit
          hread hsrc)
        refine ⟨?_, fun _ _ => ⟨hl', fun _ => ⟨_, hres, ?_⟩,
          fun hgrow => absurd hfit (by omega)⟩⟩
        · rw [hres]
          exact ⟨fun hab => absurd hab (by simp), fun hab => absurd hab (by omega)⟩
        · have hlen : ((A0.bytes.drop (offS + start)).take
              (min len (s.len - start))).length = min len (s.len - start) := by
            simp [List.length_take, List.length_drop]
            omega
          have hminmin : min (min len (s.len - start)) (s.len - start) =
              min len (s.len - start) := by
            omega
          simp only [readN, readPtr, if_true, Option.map_some', Option.some.injEq]
          rw [writeBytes_drop _ _ _ (by omega), List.append_assoc,
            List.take_append_of_le_length (by omega), List.take_take, min_self,
            List.drop_take, List.drop_drop, List.take_take, hminmin]
      · push_neg at hfit
        have hres := hsub.trans (str_copyM_grow_stale dbg A0 A0.gen (offS + start)
          (min len (s.len - start)) hm hmem hlpos (le_refl _) hfit)
        refine ⟨?_, fun _ _ => ⟨hl', fun hfit2 => absurd hfit2 (by omega),
          fun _ => hres⟩⟩
        rw [hres]
        exact ⟨fun hab => absurd hab (by simp), fun hab => absurd hab (by omega)⟩

theorem C4_str_substr_spec_witness :
    arenaMemAB64.arena.magic = ARENA_MAGIC_ALIVE ∧
    arenaMemAB64.arena.memory = true ∧
    arenaMemAB64.bytes.length = arenaMemAB64.arena.size ∧
    strABP.data = some (.arena arenaMemAB64.gen 0) ∧
    0 + strABP.len ≤ arenaMemAB64.bytes.length ∧
    (((str_substrM false true (some arenaMemAB64) strABP 1 5 =
        .ok ⟨none, 0⟩ (some arenaMemAB64)) ↔
      (strABP.len ≤ 1 ∨ 5 = 0)) ∧
     (1 < strABP.len → 0 < 5 →
      ((if 1 + 5 > strABP.len then strABP.len - 1 else 5) =
        min 5 (strABP.len - 1)) ∧
      (arenaMemAB64.arena.offset + alignUp (min 5 (strABP.len - 1) + 1) ≤
          arenaMemAB64.arena.size →
        ∃ A', str_substrM false true (some arenaMemAB64) strABP 1 5 =
            .ok ⟨some (.arena arenaMemAB64.gen arenaMemAB64.arena.offset),
              min 5 (strABP.len - 1)⟩ (some A') ∧
          readN A' (.arena arenaMemAB64.gen arenaMemAB64.arena.offset)
              (min 5 (strABP.len - 1)) =
            some ((((arenaMemAB64.bytes.drop 0).take strABP.len).drop 1).take
              (min 5 (strABP.len - 1)))) ∧
      (arenaMemAB64.arena.size < arenaMemAB64.arena.offset +
          alignUp (min 5 (strABP.len - 1) + 1) →
        str_substrM false true (some arenaMemAB64) strABP 1 5 = .ub))) :=
  ⟨rfl, rfl, by decide, rfl, by decide,
   C4_str_substr_spec false arenaMemAB64 strABP 0 1 5 rfl rfl (by decide) rfl
     (by decide)⟩

/-- C4 (counterexample): on a live allocator holding the two-byte string
"ab", substr with start 0 (well before the end) and length 0 returns the
empty/invalid sentinel although the claim allows failure only when
start >= len(s); and on the same region when it is full (cursor at 16, as
after str_create of "ab" on a 16-byte arena), substr(s, 1, 5) makes its
internal allocation grow the region, after which the copy reads s through
a pointer into the freed old region — undefined behavior instead of the
claimed copy of len(s) - start bytes. -/
theorem C4_substr_counterexample :
    strABP.len = 2 ∧
    str_substrM false true (some arenaMem16) strABP 0 0 =
      .ok ⟨none, 0⟩ (some arenaMem16) ∧
    str_substrM false true (some arenaMemABFull) strABP 1 5 = .ub := by
  decide

/-- C5 (amended): concatenating copies of byte sequences a and b on a live
allocator whose region has room for all three allocations without growing
yields a string of length len(a) + len(b) whose first len(a) + len(b)
readable bytes are a's bytes followed by b's bytes and whose next byte is
the appended terminator (an empty operand short-circuiting to a copy of
the other operand, with no observable difference); when both operands are
empty the result is the empty/invalid sentinel with a null data pointer
and no terminator.  When an allocation after the first copy has to grow
the region, the later stages read the copies through pointers into the
freed old region — undefined behavior (the relocation hazard of the
design). -/
theorem C5_concat_of_copies (dbg : Bool) (A0 : ArenaMem) (a b : List Nat)
    (hm : A0.arena.magic = ARENA_MAGIC_ALIVE) (hmem : A0.arena.memory = true)
    (hbytes : A0.bytes.length = A0.arena.size)
    (hcap : A0.arena.offset + alignUp (a.length + 1) + alignUp (b.length + 1) +
      alignUp (a.length + b.length + 1) ≤ A0.arena.size) :
    (a.length + b.length = 0 →
      concatCopiesM dbg (some A0) a b = .ok ⟨none, 0⟩ (some A0)) ∧
    (0 < a.length + b.length →
      ∃ off A', concatCopiesM dbg (some A0) a b =
          .ok ⟨some (.arena A0.gen off), a.length + b.length⟩ (some A') ∧
        readN A' (.arena A0.gen off) (a.length + b.length) = some (a ++ b) ∧
        readN A' (.arena A0.gen off) (a.length + b.length + 1) =
          some (a ++ b ++ [0])) := by
  have hvv := arena_is_validM_some A0 hm hmem
  have hlb1 : a.length + 1 ≤ alignUp (a.length + 1) := (alignUp_bounds _).2.1
  have hlb2 : b.length + 1 ≤ alignUp (b.length + 1) := (alignUp_bounds _).2.1
  have hlb3 : a.length + b.length + 1 ≤ alignUp (a.length + b.length + 1) :=
    (alignUp_bounds _).2.1
  rcases eq_or_ne a [] with ha | ha
  · subst ha
    rcases eq_or_ne b [] with hb | hb
    · subst hb
      have h1 : str_copyM dbg true (some A0) (some (.ext [])) 0 =
          .ok ⟨none, 0⟩ (some A0) := by
        simp [str_copyM]
      have h2 : str_concatM dbg true (some A0) (⟨none, 0⟩ : StrP) ⟨none, 0⟩ =
          .ok ⟨none, 0⟩ (some A0) := by
        simp [str_concatM, str_copyM, hvv]
      have hc : concatCopiesM dbg (some A0) [] [] = .ok ⟨none, 0⟩ (some A0) := by
        unfold concatCopiesM
        simp only [List.length_nil, h1, h2]
      exact ⟨fun _ => hc, fun h => absurd h (by simp)⟩
    · have hbl : b.length ≠ 0 := by simpa using hb
      simp only [List.length_nil, Nat.zero_add] at hlb3 hcap ⊢
      have h1 : str_copyM dbg true (some A0) (some (.ext [])) 0 =
          .ok ⟨none, 0⟩ (some A0) := by
        simp [str_copyM]
      have h2 := str_copyM_fit dbg A0 (.ext b) b b.length hm hmem hbl (by omega)
        rfl (le_refl _)
      rw [List.take_length] at h2
      have hv1 : arena_is_validM (some (⟨⟨A0.arena.magic, A0.arena.memory,
          A0.arena.size, A0.arena.offset + alignUp (b.length + 1)⟩,
          writeBytes A0.bytes A0.arena.offset (b ++ [0]), A0.gen⟩ : ArenaMem)) =
          true := arena_is_validM_some _ hm hmem
      have h3 : str_concatM dbg true (some (⟨⟨A0.arena.magic, A0.arena.memory,
          A0.arena.size, A0.arena.offset + alignUp (b.length + 1)⟩,
          writeBytes A0.bytes A0.arena.offset (b ++ [0]), A0.gen⟩ : ArenaMem))
          (⟨none, 0⟩ : StrP) ⟨some (.arena A0.gen A0.arena.offset), b.length⟩ =
          str_copyM dbg true (some (⟨⟨A0.arena.magic, A0.arena.memory,
            A0.arena.size, A0.arena.offset + alignUp (b.length + 1)⟩,
            writeBytes A0.bytes A0.arena.offset (b ++ [0]), A0.gen⟩ : ArenaMem))
            (some (.arena A0.gen A0.arena.offset)) b.length := by
        simp [str_concatM, hv1]
      have hB1len : (writeBytes A0.bytes A0.arena.offset (b ++ [0])).length =
          A0.bytes.length := writeBytes_length _ _ _ (by simp; omega)
      have hread : readPtr (⟨⟨A0.arena.magic, A0.arena.memory, A0.arena.size,
          A0.arena.offset + alignUp (b.length + 1)⟩,
          writeBytes A0.bytes A0.arena.offset (b ++ [0]), A0.gen⟩ : ArenaMem)
          (.arena A0.gen A0.arena.offset) =
          some ((writeBytes A0.bytes A0.arena.offset (b ++ [0])).drop
            A0.arena.offset) := by
        simp [readPtr]
      have hsrc : b.length ≤
          ((writeBytes A0.bytes A0.arena.offset (b ++ [0])).drop
            A0.arena.offset).length := by
        simp [List.length_drop, hB1len]
        omega
      have h4 : str_copyM dbg true (some (⟨⟨A0.arena.magic, A0.arena.memory,
          A0.arena.size, A0.arena.offset + alignUp (b.length + 1)⟩,
          writeBytes A0.bytes A0.arena.offset (b ++ [0]), A0.gen⟩ : ArenaMem))
          (some (.arena A0.gen A0.arena.offset)) b.length =
          .ok ⟨some (.arena A0.gen (A0.arena.offset + alignUp (b.length + 1))),
            b.length⟩
          (some ⟨⟨A0.arena.magic, A0.arena.memory, A0.arena.size,
              A0.arena.offset + alignUp (b.length + 1) + alignUp (b.length + 1)⟩,
            writeBytes (writeBytes A0.bytes A0.arena.offset (b ++ [0]))
              (A0.arena.offset + alignUp (b.length + 1))
              (((writeBytes A0.bytes A0.arena.offset (b ++ [0])).drop
                A0.arena.offset).take b.length ++ [0]), A0.gen⟩) :=
        str_copyM_fit dbg _ _ _ _ hm hmem hbl
          (by show A0.arena.offset + alignUp (b.length + 1) +
            alignUp (b.length + 1) ≤ A0.arena.size
              omega)
          hread hsrc
      have htakeB : ((writeBytes A0.bytes A0.arena.offset (b ++ [0])).drop
          A0.arena.offset).take b.length = b := by
        rw [writeBytes_drop _ _ _ (by omega), List.append_assoc,
          List.take_left' rfl]
      rw [htakeB] at h4
      have hc : concatCopiesM dbg (some A0) [] b =
          .ok ⟨some (.arena A0.gen (A0.arena.offset + alignUp (b.length + 1))),
            b.length⟩
          (some ⟨⟨A0.arena.magic, A0.arena.memory, A0.arena.size,
              A0.arena.offset + alignUp (b.length + 1) + alignUp (b.length + 1)⟩,
            writeBytes (writeBytes A0.bytes A0.arena.offset (b ++ [0]))
              (A0.arena.offset + alignUp (b.length + 1)) (b ++ [0]), A0.gen⟩) := by
        unfold concatCopiesM
        simp only [List.length_nil, h1, h2, h3, h4]
      refine ⟨fun h => absurd h (by simpa using hbl), fun _ =>
        ⟨_, _, hc, ?_, ?_⟩⟩
      · simp only [readN, readPtr, if_true, Option.map_some', Option.some.injEq]
        rw [writeBytes_drop _ _ _ (by simp [hB1len]; omega), List.append_assoc,
          List.take_left' rfl]
        simp
      · simp only [readN, readPtr, if_true, Option.map_some', Option.some.injEq]
        rw [writeBytes_drop _ _ _ (by simp [hB1len]; omega),
          List.take_append_of_le_length (by simp)]
        simp
  · have hal : a.length ≠ 0 := by simpa using ha
    have h1 := str_copyM_fit dbg A0 (.ext a) a a.length hm hmem hal (by omega)
      rfl (le_refl _)
    rw [List.take_length] at h1
    have hv1 : arena_is_validM (some (⟨⟨A0.arena.magic, A0.arena.memory,
        A0.arena.size, A0.arena.offset + alignUp (a.length + 1)⟩,
        writeBytes A0.bytes A0.arena.offset (a ++ [0]), A0.gen⟩ : ArenaMem)) =
        true := arena_is_validM_some _ hm hmem
    have hB1len : (writeBytes A0.bytes A0.arena.offset (a ++ [0])).length =
        A0.bytes.length := writeBytes_length _ _ _ (by simp; omega)
    rcases eq_or_ne b [] with hb | hb
    · subst hb
      simp only [List.length_nil, Nat.add_zero] at hlb3 hcap ⊢
      have h2 : str_copyM dbg true (some (⟨⟨A0.arena.magic, A0.arena.memory,
          A0.arena.size, A0.arena.offset + alignUp (a.length + 1)⟩,
          writeBytes A0.bytes A0.arena.offset (a ++ [0]), A0.gen⟩ : ArenaMem))
          (some (.ext [])) 0 =
          .ok ⟨none, 0⟩ (some (⟨⟨A0.arena.magic, A0.arena.memory,
            A0.arena.size, A0.arena.offset + alignUp (a.length + 1)⟩,
            writeBytes A0.bytes A0.arena.offset (a ++ [0]), A0.gen⟩ : ArenaMem)) := by
        simp [str_copyM]
      have h3 : str_concatM dbg true (some (⟨⟨A0.arena.magic, A0.arena.memory,
          A0.arena.size, A0.arena.offset + alignUp (a.length + 1)⟩,
          writeBytes A0.bytes A0.arena.offset (a ++ [0]), A0.gen⟩ : ArenaMem))
          ⟨some (.arena A0.gen A0.arena.offset), a.length⟩ (⟨none, 0⟩ : StrP) =
          str_copyM dbg true (some (⟨⟨A0.arena.magic, A0.arena.memory,
            A0.arena.size, A0.arena.offset + alignUp (a.length + 1)⟩,
            writeBytes A0.bytes A0.arena.offset (a ++ [0]), A0.gen⟩ : ArenaMem))
            (some (.arena A0.gen A0.arena.offset)) a.length := by
        simp [str_concatM, hv1, hal]
      have hread : readPtr (⟨⟨A0.arena.magic, A0.arena.memory, A0.arena.size,
          A0.arena.offset + alignUp (a.length + 1)⟩,
          writeBytes A0.bytes A0.arena.offset (a ++ [0]), A0.gen⟩ : ArenaMem)
          (.arena A0.gen A0.arena.offset) =
          some ((writeBytes A0.bytes A0.arena.offset (a ++ [0])).drop
            A0.arena.offset) := by
        simp [readPtr]
      have hsrc : a.length ≤
          ((writeBytes A0.bytes A0.arena.offset (a ++ [0])).drop
            A0.arena.offset).length := by
        simp [List.length_drop, hB1len]
        omega
      have h4 : str_copyM dbg true (some (⟨⟨A0.arena.magic, A0.arena.memory,
          A0.arena.size, A0.arena.offset + alignUp (a.length + 1)⟩,
          writeBytes A0.bytes A0.arena.offset (a ++ [0]), A0.gen⟩ : ArenaMem))
          (some (.arena A0.gen A0.arena.offset)) a.length =
          .ok ⟨some (.arena A0.gen (A0.arena.offset + alignUp (a.length + 1))),
            a.length⟩
          (some ⟨⟨A0.arena.magic, A0.arena.memory, A0.arena.size,
              A0.arena.offset + alignUp (a.length + 1) + alignUp (a.length + 1)⟩,
            writeBytes (writeBytes A0.bytes A0.arena.offset (a ++ [0]))
              (A0.arena.offset + alignUp (a.length + 1))
              (((writeBytes A0.bytes A0.arena.offset (a ++ [0])).drop
                A0.arena.offset).take a.length ++ [0]), A0.gen⟩) :=
        str_copyM_fit dbg _ _ _ _ hm hmem hal
          (by show A0.arena.offset + alignUp (a.length + 1) +
            alignUp (a.length + 1) ≤ A0.arena.size
              omega)
          hread hsrc
      have htakeA : ((writeBytes A0.bytes A0.arena.offset (a ++ [0])).drop
          A0.arena.offset).take a.length = a := by
        rw [writeBytes_drop _ _ _ (by omega), List.append_assoc,
          List.take_left' rfl]
      rw [htakeA] at h4
      have hc : concatCopiesM dbg (some A0) a [] =
          .ok ⟨some (.arena A0.gen (A0.arena.offset + alignUp (a.length + 1))),
            a.length⟩
          (some ⟨⟨A0.arena.magic, A0.arena.memory, A0.arena.size,
              A0.arena.offset + alignUp (a.length + 1) + alignUp (a.length + 1)⟩,
            writeBytes (writeBytes A0.bytes A0.arena.offset (a ++ [0]))
              (A0.arena.offset + alignUp (a.length + 1)) (a ++ [0]), A0.gen⟩) := by
        unfold concatCopiesM
        simp only [List.length_nil, h1, h2, h3, h4]
      refine ⟨fun h => absurd h (by simpa using hal), fun _ =>
        ⟨_, _, hc, ?_, ?_⟩⟩
      · simp only [readN, readPtr, if_true, Option.map_some', Option.some.injEq]
        rw [writeBytes_drop _ _ _ (by simp [hB1len]; omega), List.append_assoc,
          List.take_left' rfl]
        simp
      · simp only [readN, readPtr, if_true, Option.map_some', Option.some.injEq]
        rw [writeBytes_drop _ _ _ (by simp [hB1len]; omega),
          List.take_append_of_le_length (by simp)]
        simp
    · have hbl : b.length ≠ 0 := by simpa using hb
      have h2 : str_copyM dbg true (some (⟨⟨A0.arena.magic, A0.arena.memory,
          A0.arena.size, A0.arena.offset + alignUp (a.length + 1)⟩,
          writeBytes A0.bytes A0.arena.offset (a ++ [0]), A0.gen⟩ : ArenaMem))
          (some (.ext b)) b.length =
          .ok ⟨some (.arena A0.gen (A0.arena.offset + alignUp (a.length + 1))),
            b.length⟩
          (some ⟨⟨A0.arena.magic, A0.arena.memory, A0.arena.size,
              A0.arena.offset + alignUp (a.length + 1) + alignUp (b.length + 1)⟩,
            writeBytes (writeBytes A0.bytes A0.arena.offset (a ++ [0]))
              (A0.arena.offset + alignUp (a.length + 1)) (b.take b.length ++ [0]),
            A0.gen⟩) :=
        str_copyM_fit dbg _ _ _ _ hm hmem hbl
          (by show A0.arena.offset + alignUp (a.length + 1) +
            alignUp (b.length + 1) ≤ A0.arena.size
              omega)
          rfl (le_refl _)
      rw [List.take_length] at h2
      have hB2len : (writeBytes (writeBytes A0.bytes A0.arena.offset (a ++ [0]))
          (A0.arena.offset + alignUp (a.length + 1)) (b ++ [0])).length =
          A0.bytes.length := by
        rw [writeBytes_length _ _ _ (by simp [hB1len]; omega), hB1len]
      have hra : readPtr (⟨⟨A0.arena.magic, A0.arena.memory, A0.arena.size,
          A0.arena.offset + alignUp (a.length + 1) + alignUp (b.length + 1)⟩,
          writeBytes (writeBytes A0.bytes A0.arena.offset (a ++ [0]))
            (A0.arena.offset + alignUp (a.length + 1)) (b ++ [0]),
          A0.gen⟩ : ArenaMem) (.arena A0.gen A0.arena.offset) =
          some ((writeBytes (writeBytes A0.bytes A0.arena.offset (a ++ [0]))
            (A0.arena.offset + alignUp (a.length + 1)) (b ++ [0])).drop
            A0.arena.offset) := by
        simp [readPtr]
      have hrb : readPtr (⟨⟨A0.arena.magic, A0.arena.memory, A0.arena.size,
          A0.arena.offset + alignUp (a.length + 1) + alignUp (b.length + 1)⟩,
          writeBytes (writeBytes A0.bytes A0.arena.offset (a ++ [0]))
            (A0.arena.offset + alignUp (a.length + 1)) (b ++ [0]),
          A0.gen⟩ : ArenaMem)
          (.arena A0.gen (A0.arena.offset + alignUp (a.length + 1))) =
          some ((writeBytes (writeBytes A0.bytes A0.arena.offset (a ++ [0]))
            (A0.arena.offset + alignUp (a.length + 1)) (b ++ [0])).drop
            (A0.arena.offset + alignUp (a.length + 1))) := by
        simp [readPtr]
      have hsa : a.length ≤ ((writeBytes (writeBytes A0.bytes A0.arena.offset
          (a ++ [0])) (A0.arena.offset + alignUp (a.length + 1)) (b ++ [0])).drop
          A0.arena.offset).length := by
        simp [List.length_drop, hB2len]
        omega
      have hsb : b.length ≤ ((writeBytes (writeBytes A0.bytes A0.arena.offset
          (a ++ [0])) (A0.arena.offset + alignUp (a.length + 1)) (b ++ [0])).drop
          (A0.arena.offset + alignUp (a.length + 1))).length := by
        simp [List.length_drop, hB2len]
        omega
      have h3 : str_concatM dbg true (some (⟨⟨A0.arena.magic, A0.arena.memory,
          A0.arena.size,
          A0.arena.offset + alignUp (a.length + 1) + alignUp (b.length + 1)⟩,
          writeBytes (writeBytes A0.bytes A0.arena.offset (a ++ [0]))
            (A0.arena.offset + alignUp (a.length + 1)) (b ++ [0]),
          A0.gen⟩ : ArenaMem))
          ⟨some (.arena A0.gen A0.arena.offset), a.length⟩
          ⟨some (.arena A0.gen (A0.arena.offset + alignUp (a.length + 1))),
            b.length⟩ =
          .ok ⟨some (.arena A0.gen (A0.arena.offset + alignUp (a.length + 1) +
              alignUp (b.length + 1))), a.length + b.length⟩
          (some ⟨⟨A0.arena.magic, A0.arena.memory, A0.arena.size,
              A0.arena.offset + alignUp (a.length + 1) + alignUp (b.length + 1) +
                alignUp (a.length + b.length + 1)⟩,
            writeBytes (writeBytes (writeBytes A0.bytes A0.arena.offset (a ++ [0]))
              (A0.arena.offset + alignUp (a.length + 1)) (b ++ [0]))
              (A0.arena.offset + alignUp (a.length + 1) + alignUp (b.length + 1))
              (((writeBytes (writeBytes A0.bytes A0.arena.offset (a ++ [0]))
                (A0.arena.offset + alignUp (a.length + 1)) (b ++ [0])).drop
                A0.arena.offset).take a.length ++
              ((((writeBytes (writeBytes A0.bytes A0.arena.offset (a ++ [0]))
                (A0.arena.offset + alignUp (a.length + 1)) (b ++ [0])).drop
                (A0.arena.offset + alignUp (a.length + 1))).take b.length) ++ [0])),
            A0.gen⟩) :=
        str_concatM_fit dbg _ _ _ _ _ _ _ hm hmem hal hbl
          (by show A0.arena.offset + alignUp (a.length + 1) + alignUp (b.length + 1)
            + alignUp (a.length + b.length + 1) ≤ A0.arena.size
              omega)
          hra hrb hsa hsb
      have htakeA : ((writeBytes (writeBytes A0.bytes A0.arena.offset (a ++ [0]))
          (A0.arena.offset + alignUp (a.length + 1)) (b ++ [0])).drop
          A0.arena.offset).take a.length = a := by
        rw [writeBytes_drop_take_below _ _ _ _ _ (by omega) (by rw [hB1len]; omega),
          writeBytes_drop _ _ _ (by omega), List.append_assoc, List.take_left' rfl]
      have htakeB : ((writeBytes (writeBytes A0.bytes A0.arena.offset (a ++ [0]))
          (A0.arena.offset + alignUp (a.length + 1)) (b ++ [0])).drop
          (A0.arena.offset + alignUp (a.length + 1))).take b.length = b := by
        rw [writeBytes_drop _ _ _ (by rw [hB1len]; omega), List.append_assoc,
          List.take_left' rfl]
      rw [htakeA, htakeB] at h3
      have hc : concatCopiesM dbg (some A0) a b =
          .ok ⟨some (.arena A0.gen (A0.arena.offset + alignUp (a.length + 1) +
              alignUp (b.length + 1))), a.length + b.length⟩
          (some ⟨⟨A0.arena.magic, A0.arena.memory, A0.arena.size,
              A0.arena.offset + alignUp (a.length + 1) + alignUp (b.length + 1) +
                alignUp (a.length + b.length + 1)⟩,
            writeBytes (writeBytes (writeBytes A0.bytes A0.arena.offset (a ++ [0]))
              (A0.arena.offset + alignUp (a.length + 1)) (b ++ [0]))
              (A0.arena.offset + alignUp (a.length + 1) + alignUp (b.length + 1))
              (a ++ (b ++ [0])), A0.gen⟩) := by
        unfold concatCopiesM
        simp only [h1, h2, h3]
      refine ⟨fun h => absurd h (by simp [hal]), fun _ => ⟨_, _, hc, ?_, ?_⟩⟩
      · simp only [readN, readPtr, if_true, Option.map_some', Option.some.injEq]
        rw [writeBytes_drop _ _ _ (by rw [hB2len]; omega),
          List.take_append_of_le_length (by simp),
          ← List.append_assoc, List.take_left' (by simp)]
      · simp only [readN, readPtr, if_true, Option.map_some', Option.some.injEq]
        have hlen3 : (a ++ (b ++ [0])).length = a.length + b.length + 1 := by
          simp only [List.length_append, List.length_cons, List.length_nil]
          omega
        rw [writeBytes_drop _ _ _ (by rw [hB2len]; omega), List.take_left' hlen3,
          ← List.append_assoc]

theorem C5_concat_of_copies_witness :
    arenaMemZ64.arena.magic = ARENA_MAGIC_ALIVE ∧
    arenaMemZ64.arena.memory = true ∧
    arenaMemZ64.bytes.length = arenaMemZ64.arena.size ∧
    arenaMemZ64.arena.offset + alignUp ([1].length + 1) + alignUp ([2, 3].length + 1) +
      alignUp ([1].length + [2, 3].length + 1) ≤ arenaMemZ64.arena.size ∧
    (([1].length + [2, 3].length = 0 →
      concatCopiesM false (some arenaMemZ64) [1] [2, 3] =
        .ok ⟨none, 0⟩ (some arenaMemZ64)) ∧
     (0 < [1].length + [2, 3].length →
      ∃ off A', concatCopiesM false (some arenaMemZ64) [1] [2, 3] =
          .ok ⟨some (.arena arenaMemZ64.gen off), [1].length + [2, 3].length⟩
            (some A') ∧
        readN A' (.arena arenaMemZ64.gen off) ([1].length + [2, 3].length) =
          some ([1] ++ [2, 3]) ∧
        readN A' (.arena arenaMemZ64.gen off) ([1].length + [2, 3].length + 1) =
          some ([1] ++ [2, 3] ++ [0]))) :=
  ⟨rfl, rfl, by decide, by decide,
   C5_concat_of_copies false arenaMemZ64 [1] [2, 3] rfl rfl (by decide) (by decide)⟩

/-- C5 (counterexample): concatenating copies of two empty byte sequences
on a live allocator yields the sentinel (Str){0} with a null data pointer
and no terminator, although the claim promises a terminated buffer for all
operands including empty ones; and on a 16-byte arena, copying [1] fills
the region, copying [2, 3] grows (relocates) it, and the concatenation
grows it again and then reads the first copy through a pointer into a
freed region — undefined behavior instead of the claimed a ++ b result. -/
theorem C5_concat_empty_counterexample :
    concatCopiesM false (some arenaMem16) [] [] = .ok ⟨none, 0⟩ (some arenaMem16) ∧
    concatCopiesM false (some arenaMem16) [1] [2, 3] = .ub := by
  decide

end Containers
